import Mathlib

/-!
Shallow embedding of the grade-notification SSE server
(`grade-notifications.ts`): in-memory connection registry, missed-notification
store, metrics, and the route handlers built on them.  JS `Map`s are modelled
as insertion-ordered association lists, JS `Set`s as insertion-ordered
duplicate-free lists (iteration order of both is insertion order, which the
code relies on for oldest-connection eviction).  A `FastifyReply` is opaque to
the core beyond identity and whether `reply.raw.write` succeeds, so it is
modelled as an id plus a write-success flag; successful writes are collected
in a global log, and `reply.raw.end` calls (evictions) in a closed-log.
-/

namespace GradeNotifications

/-- A live SSE connection (`FastifyReply` in the source): identity for set
membership plus whether `reply.raw.write` succeeds or throws. -/
structure Channel where
  cid : Nat
  writeOk : Bool
deriving DecidableEq, Repr

/-- `Notification` from `types.ts`. -/
structure Notification where
  id : String
  studentId : String
  message : String
  createdAt : Nat
deriving DecidableEq, Repr

/-- The SSE frames the server writes: the initial `: connected` comment, the
`type: missed` replay events and the `type: live` broadcast events. -/
inductive Frame where
  | connected (timestamp : Nat)
  | missed (id : String) (message : String) (createdAt : Nat)
  | live (id : String) (message : String) (createdAt : Nat)
deriving DecidableEq, Repr

/-- The `metrics` record.  `connectionsActive` is kept as an integer because
the source guards its decrements with `Math.max(0, x - 1)`. -/
structure Metrics where
  connectionsTotal : Nat
  connectionsActive : Int
  notificationsSent : Nat
  notificationsStored : Nat
  notificationsEvicted : Nat
deriving DecidableEq, Repr

/-- Whole server state: the two in-memory maps, the metrics, a log of
successful channel writes `(cid, frame)`, and a log of `raw.end` calls made by
the eviction path. -/
structure ServerState where
  connections : List (String × List Channel)
  recentNotifications : List (String × List Notification)
  metrics : Metrics
  written : List (Nat × Frame)
  closedLog : List Nat
deriving DecidableEq, Repr

/-- `Map.get`. -/
def mapGet {α : Type} (m : List (String × α)) (k : String) : Option α :=
  (m.find? (fun e => e.1 = k)).map (fun e => e.2)

/-- `Map.set`: replaces the entry in place when the key exists (JS `Map.set`
keeps the key's original insertion position), appends otherwise. -/
def mapSet {α : Type} (m : List (String × α)) (k : String) (v : α) : List (String × α) :=
  if m.any (fun e => e.1 = k) then
    m.map (fun e => if e.1 = k then (k, v) else e)
  else
    m ++ [(k, v)]

/-- `Map.delete`. -/
def mapDelete {α : Type} (m : List (String × α)) (k : String) : List (String × α) :=
  m.filter (fun e => ¬ e.1 = k)

/-- `Set.add`: a no-op when the element is already present (and then it keeps
its original position), otherwise appends at the tail. -/
def setAdd (set : List Channel) (ch : Channel) : List Channel :=
  if ch ∈ set then set else set ++ [ch]

/-- `Set.delete`: removes the (single) occurrence of the element. -/
def setDelete : List Channel → Channel → List Channel
  | [], _ => []
  | c :: rest, ch => if c = ch then rest else c :: setDelete rest ch

/-- Modelled from the spec: `MAX_CONNECTIONS_PER_STUDENT` is imported from
`./constants/constants`, which is not among the provided sources; the README
documents "a per-student set of active connections in memory with a limit of
3 devices". -/
def MAX_CONNECTIONS_PER_STUDENT : Nat := 3

/-- Modelled from the spec: `NOTIFICATION_TTL_MS` is imported from
`./constants/constants`, which is not among the provided sources; the README
documents "Notifications are stored in memory for 24 hours" (in ms). -/
def NOTIFICATION_TTL_MS : Nat := 86400000

/-- The filter used by `pruneOldNotifications`:
`now - n.createdAt <= NOTIFICATION_TTL_MS`. -/
def keepFresh (now : Nat) (list : List Notification) : List Notification :=
  list.filter (fun n => now - n.createdAt ≤ NOTIFICATION_TTL_MS)

/-- `pruneOldNotifications`: per student, keep only the entries within the
TTL, add the number dropped to `notificationsEvicted`, and delete the
student's key entirely when its filtered history is empty. -/
def pruneOldNotifications (now : Nat) (s : ServerState) : ServerState :=
  let evictedCount :=
    (s.recentNotifications.map (fun e => e.2.length - (keepFresh now e.2).length)).sum
  { s with
    recentNotifications :=
      (s.recentNotifications.map (fun e => (e.1, keepFresh now e.2))).filter
        (fun e => ¬ e.2.isEmpty),
    metrics := { s.metrics with
      notificationsEvicted := s.metrics.notificationsEvicted + evictedCount } }

/-- `addRecentNotification`: push at the tail of the student's history,
increment `notificationsStored`, then run `pruneOldNotifications()` (the
source calls it with `Date.now()`, modelled as the same instant `now`). -/
def addRecentNotification (now : Nat) (n : Notification) (s : ServerState) : ServerState :=
  let list := (mapGet s.recentNotifications n.studentId).getD []
  let s1 := { s with
    recentNotifications := mapSet s.recentNotifications n.studentId (list ++ [n]),
    metrics := { s.metrics with
      notificationsStored := s.metrics.notificationsStored + 1 } }
  pruneOldNotifications now s1

/-- `broadcastToStudent`: returns `0` untouched when the student has no set
or an empty set; otherwise attempts `reply.raw.write` on every channel of the
set in order, swallowing write errors, and adds the number of successful
writes to `notificationsSent`, returning that number. -/
def broadcastToStudent (studentId : String) (payload : Frame) (s : ServerState) :
    Nat × ServerState :=
  match mapGet s.connections studentId with
  | none => (0, s)
  | some set =>
    if set.isEmpty then (0, s)
    else
      let delivered := set.filter (fun c => c.writeOk)
      let sent := delivered.length
      (sent,
        { s with
          written := s.written ++ delivered.map (fun c => (c.cid, payload)),
          metrics := { s.metrics with
            notificationsSent := s.metrics.notificationsSent + sent } })

/-- `registerConnection`: when the student's set has reached
`MAX_CONNECTIONS_PER_STUDENT`, call `raw.end` on the oldest (first-inserted)
channel, delete it from the set and decrement `connectionsActive` (guarded by
`Math.max(0, ·)`); then add the new channel and bump `connectionsTotal` and
`connectionsActive`. -/
def registerConnection (studentId : String) (ch : Channel) (s : ServerState) : ServerState :=
  let set0 := (mapGet s.connections studentId).getD []
  let afterEvict : List Channel × ServerState :=
    if MAX_CONNECTIONS_PER_STUDENT ≤ set0.length then
      match set0.head? with
      | some oldest =>
        (setDelete set0 oldest,
          { s with
            closedLog := s.closedLog ++ [oldest.cid],
            metrics := { s.metrics with
              connectionsActive := max 0 (s.metrics.connectionsActive - 1) } })
      | none => (set0, s)
    else (set0, s)
  let set1 := setAdd afterEvict.1 ch
  let s1 := afterEvict.2
  { s1 with
    connections := mapSet s1.connections studentId set1,
    metrics := { s1.metrics with
      connectionsTotal := s1.metrics.connectionsTotal + 1,
      connectionsActive := s1.metrics.connectionsActive + 1 } }

/-- `unregisterConnection`: a no-op when the student has no set; otherwise
delete the channel (decrementing `connectionsActive`, guarded by
`Math.max(0, ·)`, only when the delete removed something) and drop the
student's key when the set became empty. -/
def unregisterConnection (studentId : String) (ch : Channel) (s : ServerState) : ServerState :=
  match mapGet s.connections studentId with
  | none => s
  | some set =>
    let set1 := setDelete set ch
    let m1 :=
      if ch ∈ set then
        { s.metrics with connectionsActive := max 0 (s.metrics.connectionsActive - 1) }
      else s.metrics
    let conns1 := mapSet s.connections studentId set1
    let conns2 := if set1.isEmpty then mapDelete conns1 studentId else conns1
    { s with connections := conns2, metrics := m1 }

/-- Responses of the route handlers, as far as the claims observe them. -/
inductive HttpResponse where
  | badRequest (error : String)
  | accepted (id : String)
  | acceptedBatch (count : Nat) (ids : List (String × String))
  | streamOpen
  | streamAborted
deriving DecidableEq, Repr

/-- The `POST /publish` handler: `400` when `studentId` or `message` is
missing/empty (JS falsiness of strings), otherwise build the notification
with a fresh id `freshId` and `createdAt = now`, append it to the store
(which prunes), broadcast it as a `live` frame, and answer `202` with the new
id. -/
def publishHandler (now : Nat) (freshId studentId message : String) (s : ServerState) :
    HttpResponse × ServerState :=
  if studentId = "" ∨ message = "" then
    (HttpResponse.badRequest "studentId and message required", s)
  else
    let n : Notification :=
      { id := freshId, studentId := studentId, message := message, createdAt := now }
    let s1 := addRecentNotification now n s
    let s2 := (broadcastToStudent studentId (Frame.live n.id n.message n.createdAt) s1).2
    (HttpResponse.accepted n.id, s2)

/-- The `GET /sse` handler: `400` when `studentId` is missing/empty; otherwise
register the connection, write the `: connected` comment (this write is not
wrapped in try/catch, so a failing channel aborts the handler there), prune,
and replay the student's kept history as `missed` frames, oldest first, to
this channel only. -/
def sseHandler (now : Nat) (studentId : String) (ch : Channel) (s : ServerState) :
    HttpResponse × ServerState :=
  if studentId = "" then (HttpResponse.badRequest "studentId is required", s)
  else
    let s1 := registerConnection studentId ch s
    if ch.writeOk then
      let s2 := { s1 with written := s1.written ++ [(ch.cid, Frame.connected now)] }
      let s3 := pruneOldNotifications now s2
      let missed := (mapGet s3.recentNotifications studentId).getD []
      let s4 := { s3 with
        written := s3.written ++
          missed.map (fun n => (ch.cid, Frame.missed n.id n.message n.createdAt)) }
      (HttpResponse.streamOpen, s4)
    else (HttpResponse.streamAborted, s1)

/-- Body of the `POST /publish/batch` loop: entries failing validation are
skipped; each accepted entry (carrying its own fresh id) is appended and
broadcast exactly as in single publish, and `(id, studentId)` is collected. -/
def processBatch (now : Nat) :
    List (String × String × String) → ServerState → List (String × String) × ServerState
  | [], s => ([], s)
  | (fid, sid, msg) :: rest, s =>
    if sid = "" ∨ msg = "" then processBatch now rest s
    else
      let n : Notification := { id := fid, studentId := sid, message := msg, createdAt := now }
      let s1 := addRecentNotification now n s
      let s2 := (broadcastToStudent sid (Frame.live n.id n.message n.createdAt) s1).2
      let res := processBatch now rest s2
      ((fid, sid) :: res.1, res.2)

/-- The `POST /publish/batch` handler: `400` when the array is absent or
empty, otherwise process the entries and answer `202` with count and ids. -/
def publishBatchHandler (now : Nat) (body : Option (List (String × String × String)))
    (s : ServerState) : HttpResponse × ServerState :=
  match body with
  | none => (HttpResponse.badRequest "notifications array required", s)
  | some entries =>
    if entries.isEmpty then (HttpResponse.badRequest "notifications array required", s)
    else
      let res := processBatch now entries s
      (HttpResponse.acceptedBatch res.1.length res.1, res.2)

/-- Process start: both maps empty, all metrics zero. -/
def initialState : ServerState :=
  { connections := []
    recentNotifications := []
    metrics :=
      { connectionsTotal := 0, connectionsActive := 0, notificationsSent := 0,
        notificationsStored := 0, notificationsEvicted := 0 }
    written := []
    closedLog := [] }

/-- The primitive state-changing operations of the core, used to quantify
over arbitrary operation sequences: registry register/unregister/broadcast,
store append (the publish path), and the prune pass (the maintenance loop
tick). -/
inductive Op where
  | register (studentId : String) (ch : Channel)
  | unregister (studentId : String) (ch : Channel)
  | broadcast (studentId : String) (payload : Frame)
  | append (now : Nat) (n : Notification)
  | prune (now : Nat)

def applyOp (op : Op) (s : ServerState) : ServerState :=
  match op with
  | .register sid ch => registerConnection sid ch s
  | .unregister sid ch => unregisterConnection sid ch s
  | .broadcast sid payload => (broadcastToStudent sid payload s).2
  | .append now n => addRecentNotification now n s
  | .prune now => pruneOldNotifications now s

def applyOps (ops : List Op) (s : ServerState) : ServerState :=
  ops.foldl (fun s op => applyOp op s) s

/-- Total number of live channels across all students. -/
def sumLens {α : Type} (m : List (String × List α)) : Nat :=
  (m.map (fun e => e.2.length)).sum

def totalChannels (s : ServerState) : Nat := sumLens s.connections

def storeCount (s : ServerState) : Nat := sumLens s.recentNotifications

/-- A JS `Map` cannot hold a key twice; association lists representing one
satisfy this. -/
def keysNodup {α : Type} (m : List (String × α)) : Prop :=
  (m.map (fun e => e.1)).Nodup

instance {α : Type} (m : List (String × α)) : Decidable (keysNodup m) := by
  unfold keysNodup
  infer_instance

/-- The channels of the `Op.register` operations of a trace, in order. -/
def registeredChannels : List Op → List Channel
  | [] => []
  | .register _ ch :: rest => ch :: registeredChannels rest
  | _ :: rest => registeredChannels rest

/-- `ch` is not currently held in any student's connection set. -/
def chanFresh (ch : Channel) (s : ServerState) : Prop :=
  ∀ e ∈ s.connections, ch ∉ e.2

instance (ch : Channel) (s : ServerState) : Decidable (chanFresh ch s) :=
  inferInstanceAs (Decidable (∀ e ∈ s.connections, ch ∉ e.2))

/-- The atomic steps of one `publish` racing one `subscribe` for the same
student: publish is store-append followed by live-broadcast, subscribe is
registration (with the `: connected` marker folded into the replay step kept
separate below) followed by the prune-snapshot-replay read. -/
inductive DeliveryStep where
  | storeAppend
  | liveBroadcast
  | registerStep
  | replayStep
deriving DecidableEq, Repr

/-- Parameters of the race: the common student, the published message with
its fresh id and timestamp, and the subscribing channel. -/
structure RaceScenario where
  studentId : String
  message : String
  freshId : String
  ch : Channel
  now : Nat

/-- Semantics of one step of the race, taken verbatim from the publish and
sse handlers: `storeAppend` and `liveBroadcast` are the two calls of the
publish handler, `registerStep` is `registerConnection`, and `replayStep` is
the connected-marker write, the prune and the missed replay of the sse
handler (when the marker write throws, the rest of the handler is skipped). -/
def execStep (sc : RaceScenario) (s : ServerState) : DeliveryStep → ServerState
  | .storeAppend =>
    addRecentNotification sc.now
      { id := sc.freshId, studentId := sc.studentId, message := sc.message,
        createdAt := sc.now } s
  | .liveBroadcast =>
    (broadcastToStudent sc.studentId (Frame.live sc.freshId sc.message sc.now) s).2
  | .registerStep => registerConnection sc.studentId sc.ch s
  | .replayStep =>
    if sc.ch.writeOk then
      let s1 := { s with written := s.written ++ [(sc.ch.cid, Frame.connected sc.now)] }
      let s2 := pruneOldNotifications sc.now s1
      let missed := (mapGet s2.recentNotifications sc.studentId).getD []
      { s2 with
        written := s2.written ++
          missed.map (fun n => (sc.ch.cid, Frame.missed n.id n.message n.createdAt)) }
    else s

def runSchedule (sc : RaceScenario) (sched : List DeliveryStep) (s : ServerState) :
    ServerState :=
  sched.foldl (execStep sc) s

/-- The program order of the publish handler. -/
def publishSteps : List DeliveryStep := [.storeAppend, .liveBroadcast]

/-- The program order of the sse handler. -/
def subscribeSteps : List DeliveryStep := [.registerStep, .replayStep]

/-- All order-preserving merges of two sequences of steps (the recursion is
driven by a fuel counter that the wrapper below sets to the total length, so
that the function reduces by structural recursion). -/
def interleavingsAux {α : Type} : Nat → List α → List α → List (List α)
  | 0, xs, ys => [xs ++ ys]
  | _ + 1, [], ys => [ys]
  | _ + 1, x :: xs, [] => [x :: xs]
  | fuel + 1, x :: xs, y :: ys =>
    (interleavingsAux fuel xs (y :: ys)).map (fun zs => x :: zs) ++
      (interleavingsAux fuel (x :: xs) ys).map (fun zs => y :: zs)

/-- All order-preserving merges of two sequences of steps. -/
def interleavings {α : Type} (xs ys : List α) : List (List α) :=
  interleavingsAux (xs.length + ys.length) xs ys

/-- The subscribing channel received the published message, as a missed
replay frame or as a live broadcast frame. -/
def deliveredM (sc : RaceScenario) (s : ServerState) : Prop :=
  (sc.ch.cid, Frame.missed sc.freshId sc.message sc.now) ∈ s.written ∨
    (sc.ch.cid, Frame.live sc.freshId sc.message sc.now) ∈ s.written

/-- A concrete two-recipient store used as witness input: recipient `s1` has
one entry aged beyond the TTL, recipient `s2` one fresh entry. -/
def wState5 : ServerState :=
  { initialState with
    recentNotifications :=
      [("s1", [{ id := "a", studentId := "s1", message := "m1", createdAt := 0 }]),
        ("s2", [{ id := "b", studentId := "s2", message := "m2", createdAt := 90000000 }])] }

/-- A concrete one-connection registry used as witness input. -/
def wState7 : ServerState := registerConnection "a" ⟨7, true⟩ initialState

/-- Four ordered synthetic channel identities used as witness input. -/
def wChans : List Channel := [⟨1, true⟩, ⟨2, true⟩, ⟨3, true⟩, ⟨4, true⟩]

/-! ### Basic lemmas about the JS `Map` and `Set` models -/

theorem mapGet_nil {α : Type} (k : String) : mapGet ([] : List (String × α)) k = none := rfl

theorem mapGet_cons {α : Type} (e : String × α) (m : List (String × α)) (k : String) :
    mapGet (e :: m) k = if e.1 = k then some e.2 else mapGet m k := by
  by_cases h : e.1 = k <;> simp [mapGet, List.find?_cons, h]

theorem mapDelete_nil {α : Type} (k : String) :
    mapDelete ([] : List (String × α)) k = [] := rfl

theorem mapDelete_cons {α : Type} (e : String × α) (m : List (String × α)) (k : String) :
    mapDelete (e :: m) k = if e.1 = k then mapDelete m k else e :: mapDelete m k := by
  by_cases h : e.1 = k <;> simp [mapDelete, List.filter_cons, h]

theorem mapGet_eq_none_iff {α : Type} (m : List (String × α)) (k : String) :
    mapGet m k = none ↔ ∀ e ∈ m, e.1 ≠ k := by
  induction m with
  | nil => simp [mapGet_nil]
  | cons e m ih =>
    rw [mapGet_cons]
    by_cases h : e.1 = k <;> simp [h, ih]

theorem mapGet_mem {α : Type} {m : List (String × α)} {k : String} {v : α}
    (h : mapGet m k = some v) : (k, v) ∈ m := by
  induction m with
  | nil => simp [mapGet_nil] at h
  | cons e m ih =>
    rw [mapGet_cons] at h
    by_cases he : e.1 = k
    · rw [if_pos he] at h
      have : e = (k, v) := by
        cases h
        exact Prod.ext he rfl
      exact this ▸ List.mem_cons_self e m
    · rw [if_neg he] at h
      exact List.mem_cons_of_mem _ (ih h)

theorem any_key_of_some {α : Type} {m : List (String × α)} {k : String} {v : α}
    (h : mapGet m k = some v) : m.any (fun e => e.1 = k) = true := by
  have := mapGet_mem h
  simp only [List.any_eq_true]
  exact ⟨(k, v), this, by simp⟩

theorem any_key_of_none {α : Type} {m : List (String × α)} {k : String}
    (h : mapGet m k = none) : m.any (fun e => e.1 = k) = false := by
  rw [mapGet_eq_none_iff] at h
  simp only [List.any_eq_false]
  intro e he
  simpa using h e he

theorem mapSet_of_none {α : Type} {m : List (String × α)} {k : String} (v : α)
    (h : mapGet m k = none) : mapSet m k v = m ++ [(k, v)] := by
  simp [mapSet, any_key_of_none h]

theorem mapGet_append {α : Type} (m m' : List (String × α)) (k : String) :
    mapGet (m ++ m') k =
      match mapGet m k with | some v => some v | none => mapGet m' k := by
  induction m with
  | nil => simp [mapGet_nil]
  | cons e m ih =>
    by_cases h : e.1 = k <;> simp [mapGet_cons, h, ih]

theorem mapGet_map_update_self {α : Type} {m : List (String × α)} {k : String} {v : α}
    (h : m.any (fun e => e.1 = k) = true) :
    mapGet (m.map (fun e => if e.1 = k then (k, v) else e)) k = some v := by
  induction m with
  | nil => simp at h
  | cons e m ih =>
    by_cases he : e.1 = k
    · simp [he, mapGet_cons]
    · have hm : m.any (fun e => e.1 = k) = true := by simpa [he] using h
      simpa [he, mapGet_cons] using ih hm

theorem mapGet_map_update_ne {α : Type} (m : List (String × α)) {k k' : String} (v : α)
    (h : k' ≠ k) :
    mapGet (m.map (fun e => if e.1 = k then (k, v) else e)) k' = mapGet m k' := by
  induction m with
  | nil => rfl
  | cons e m ih =>
    by_cases he : e.1 = k
    · have hkk : ¬ (k = k') := fun hh => h hh.symm
      have hek : ¬ (e.1 = k') := by rw [he]; exact hkk
      simp [he, mapGet_cons, hkk, hek, ih]
    · by_cases he' : e.1 = k' <;> simp [he, mapGet_cons, he', h, ih]

theorem mapGet_mapSet_self {α : Type} (m : List (String × α)) (k : String) (v : α) :
    mapGet (mapSet m k v) k = some v := by
  by_cases hany : m.any (fun e => e.1 = k) = true
  · simpa [mapSet, hany] using mapGet_map_update_self hany
  · have hnone : mapGet m k = none := by
      rw [mapGet_eq_none_iff]
      intro e he heq
      exact hany (by simp only [List.any_eq_true]; exact ⟨e, he, by simp [heq]⟩)
    rw [mapSet, if_neg hany, mapGet_append, hnone]
    simp [mapGet_cons]

theorem mapGet_mapSet_ne {α : Type} (m : List (String × α)) {k k' : String} (v : α)
    (h : k' ≠ k) : mapGet (mapSet m k v) k' = mapGet m k' := by
  by_cases hany : m.any (fun e => e.1 = k) = true
  · simpa [mapSet, hany] using mapGet_map_update_ne m v h
  · rw [mapSet, if_neg hany, mapGet_append]
    have hkk : ¬ (k = k') := fun hh => h hh.symm
    rcases hm : mapGet m k' with _ | w
    · simp [mapGet_cons, mapGet_nil, hkk]
    · simp

theorem mapGet_mapDelete_self {α : Type} (m : List (String × α)) (k : String) :
    mapGet (mapDelete m k) k = none := by
  rw [mapGet_eq_none_iff]
  intro e he
  have := List.of_mem_filter he
  simpa using this

theorem mapGet_mapDelete_ne {α : Type} (m : List (String × α)) {k k' : String}
    (h : k' ≠ k) : mapGet (mapDelete m k) k' = mapGet m k' := by
  induction m with
  | nil => rfl
  | cons e m ih =>
    rw [mapDelete_cons]
    have hkk : ¬ (k = k') := fun hh => h hh.symm
    by_cases he : e.1 = k
    · have hek : ¬ (e.1 = k') := by rw [he]; exact hkk
      simp [he, mapGet_cons, hek, hkk, ih]
    · by_cases he' : e.1 = k' <;> simp [he, mapGet_cons, he', h, ih]

theorem mem_mapSet {α : Type} {m : List (String × α)} {k : String} {v : α}
    {e : String × α} (h : e ∈ mapSet m k v) : e ∈ m ∨ e = (k, v) := by
  by_cases hany : m.any (fun e => e.1 = k) = true
  · rw [mapSet, if_pos hany] at h
    rcases List.mem_map.mp h with ⟨e', he', heq⟩
    by_cases hk : e'.1 = k
    · right
      rw [← heq, if_pos hk]
    · left
      rw [← heq, if_neg hk]
      exact he'
  · rw [mapSet, if_neg hany] at h
    rcases List.mem_append.mp h with h' | h'
    · exact Or.inl h'
    · exact Or.inr (List.mem_singleton.mp h')

theorem mem_mapDelete {α : Type} {m : List (String × α)} {k : String}
    {e : String × α} (h : e ∈ mapDelete m k) : e ∈ m :=
  List.mem_of_mem_filter h

theorem keys_mapSet_of_any {α : Type} {m : List (String × α)} {k : String} (v : α)
    (hany : m.any (fun e => e.1 = k) = true) :
    (mapSet m k v).map (fun e => e.1) = m.map (fun e => e.1) := by
  rw [mapSet, if_pos hany, List.map_map]
  refine List.map_congr_left ?_
  intro e _
  by_cases he : e.1 = k <;> simp [he]

theorem keysNodup_mapSet {α : Type} {m : List (String × α)} (k : String) (v : α)
    (h : keysNodup m) : keysNodup (mapSet m k v) := by
  by_cases hany : m.any (fun e => e.1 = k) = true
  · unfold keysNodup
    rw [keys_mapSet_of_any v hany]
    exact h
  · have hnone : mapGet m k = none := by
      rw [mapGet_eq_none_iff]
      intro e he heq
      exact hany (by simp only [List.any_eq_true]; exact ⟨e, he, by simp [heq]⟩)
    unfold keysNodup at h ⊢
    rw [mapSet, if_neg hany, List.map_append]
    simp only [List.map_cons, List.map_nil]
    rw [List.nodup_append]
    refine ⟨h, List.nodup_singleton k, ?_⟩
    intro a ha hb
    rcases List.mem_map.mp ha with ⟨e, he, heq⟩
    rw [List.mem_singleton] at hb
    rw [mapGet_eq_none_iff] at hnone
    exact hnone e he (by rw [heq, hb])

theorem keysNodup_mapDelete {α : Type} {m : List (String × α)} (k : String)
    (h : keysNodup m) : keysNodup (mapDelete m k) := by
  unfold keysNodup at h ⊢
  exact List.Nodup.sublist (List.Sublist.map _ (List.filter_sublist m)) h

theorem mapGet_cons_none_of_keysNodup {α : Type} {e : String × α} {m : List (String × α)}
    (h : keysNodup (e :: m)) : mapGet m e.1 = none := by
  unfold keysNodup at h
  rw [List.map_cons, List.nodup_cons] at h
  rw [mapGet_eq_none_iff]
  intro e' he' heq
  exact h.1 (List.mem_map.mpr ⟨e', he', heq⟩)

theorem mapSet_self {α : Type} {m : List (String × α)} {k : String} {v : α}
    (hk : keysNodup m) (h : mapGet m k = some v) : mapSet m k v = m := by
  induction m with
  | nil => simp [mapGet_nil] at h
  | cons e m ih =>
    rw [mapGet_cons] at h
    by_cases he : e.1 = k
    · rw [if_pos he] at h
      have hev : e = (k, v) := by cases h; exact Prod.ext he rfl
      have hnone : mapGet m k = none := by
        have := mapGet_cons_none_of_keysNodup hk
        rwa [he] at this
      have hany : (e :: m).any (fun e => e.1 = k) = true := by
        simp only [List.any_cons, he]
        simp
      rw [mapSet, if_pos hany, List.map_cons, if_pos (by simpa using he), ← hev]
      congr 1
      refine (List.map_congr_left ?_).trans (List.map_id m)
      intro e' he'
      rw [mapGet_eq_none_iff] at hnone
      simp [hnone e' he']
    · rw [if_neg he] at h
      have hk' : keysNodup m := by
        unfold keysNodup at hk ⊢
        exact (List.nodup_cons.mp hk).2
      have hany : (e :: m).any (fun e => e.1 = k) = true := by
        simp only [List.any_cons, any_key_of_some h]
        simp
      have hanym : m.any (fun e => e.1 = k) = true := any_key_of_some h
      rw [mapSet, if_pos hany, List.map_cons, if_neg (by simpa using he)]
      have := ih hk' h
      rw [mapSet, if_pos hanym] at this
      rw [this]

theorem sumLens_nil {α : Type} : sumLens ([] : List (String × List α)) = 0 := rfl

theorem sumLens_cons {α : Type} (e : String × List α) (m : List (String × List α)) :
    sumLens (e :: m) = e.2.length + sumLens m := by
  simp [sumLens]

theorem sumLens_append {α : Type} (m m' : List (String × List α)) :
    sumLens (m ++ m') = sumLens m + sumLens m' := by
  simp [sumLens]

theorem length_le_sumLens {α : Type} {m : List (String × List α)} {e : String × List α}
    (h : e ∈ m) : e.2.length ≤ sumLens m := by
  induction m with
  | nil => simp at h
  | cons e' m ih =>
    rw [sumLens_cons]
    rcases List.mem_cons.mp h with h' | h'
    · rw [h']
      exact Nat.le_add_right _ _
    · exact Nat.le_trans (ih h') (Nat.le_add_left _ _)

theorem sumLens_mapSet_none {α : Type} {m : List (String × List α)} {k : String}
    (v : List α) (h : mapGet m k = none) :
    sumLens (mapSet m k v) = sumLens m + v.length := by
  rw [mapSet_of_none v h, sumLens_append, sumLens_cons, sumLens_nil]
  rfl

theorem sumLens_mapSet_some {α : Type} {m : List (String × List α)} {k : String}
    {l : List α} (v : List α) (hk : keysNodup m) (h : mapGet m k = some l) :
    sumLens (mapSet m k v) + l.length = sumLens m + v.length := by
  induction m with
  | nil => simp [mapGet_nil] at h
  | cons e m ih =>
    rw [mapGet_cons] at h
    by_cases he : e.1 = k
    · rw [if_pos he] at h
      have hel : e.2 = l := by cases h; rfl
      have hnone : mapGet m k = none := by
        have := mapGet_cons_none_of_keysNodup hk
        rwa [he] at this
      have hany : (e :: m).any (fun e => e.1 = k) = true := by
        simp only [List.any_cons, he]; simp
      rw [mapSet, if_pos hany, List.map_cons, if_pos (by simpa using he)]
      have hid : List.map (fun e => if e.1 = k then (k, v) else e) m = m := by
        refine (List.map_congr_left ?_).trans (List.map_id m)
        intro e' he'
        rw [mapGet_eq_none_iff] at hnone
        simp [hnone e' he']
      rw [hid, sumLens_cons, sumLens_cons, ← hel]
      show v.length + sumLens m + e.2.length = e.2.length + sumLens m + v.length
      omega
    · rw [if_neg he] at h
      have hk' : keysNodup m := by
        unfold keysNodup at hk ⊢
        exact (List.nodup_cons.mp hk).2
      have hany : (e :: m).any (fun e => e.1 = k) = true := by
        simp only [List.any_cons, any_key_of_some h]; simp
      have hanym : m.any (fun e => e.1 = k) = true := any_key_of_some h
      rw [mapSet, if_pos hany, List.map_cons, if_neg (by simpa using he), sumLens_cons]
      have := ih hk' h
      rw [mapSet, if_pos hanym] at this
      rw [sumLens_cons]
      omega

theorem mapDelete_of_none {α : Type} {m : List (String × α)} {k : String}
    (h : mapGet m k = none) : mapDelete m k = m := by
  rw [mapGet_eq_none_iff] at h
  induction m with
  | nil => rfl
  | cons e m ih =>
    rw [mapDelete_cons, if_neg (h e (List.mem_cons_self e m))]
    rw [ih (fun e' he' => h e' (List.mem_cons_of_mem _ he'))]

theorem sumLens_mapDelete_some {α : Type} {m : List (String × List α)} {k : String}
    {l : List α} (hk : keysNodup m) (h : mapGet m k = some l) :
    sumLens (mapDelete m k) + l.length = sumLens m := by
  induction m with
  | nil => simp [mapGet_nil] at h
  | cons e m ih =>
    rw [mapGet_cons] at h
    by_cases he : e.1 = k
    · rw [if_pos he] at h
      have hel : e.2 = l := by cases h; rfl
      have hnone : mapGet m k = none := by
        have := mapGet_cons_none_of_keysNodup hk
        rwa [he] at this
      rw [mapDelete_cons, if_pos he, mapDelete_of_none hnone, sumLens_cons, ← hel]
      omega
    · rw [if_neg he] at h
      have hk' : keysNodup m := by
        unfold keysNodup at hk ⊢
        exact (List.nodup_cons.mp hk).2
      rw [mapDelete_cons, if_neg he, sumLens_cons, sumLens_cons]
      have := ih hk' h
      omega

/-! ### Lemmas about the `Set` model -/

theorem setDelete_of_not_mem {set : List Channel} {ch : Channel} (h : ch ∉ set) :
    setDelete set ch = set := by
  induction set with
  | nil => rfl
  | cons c rest ih =>
    rw [setDelete]
    rw [List.mem_cons, not_or] at h
    rw [if_neg (fun hh => h.1 hh.symm), ih h.2]

theorem length_setDelete_of_mem {set : List Channel} {ch : Channel} (h : ch ∈ set) :
    (setDelete set ch).length + 1 = set.length := by
  induction set with
  | nil => simp at h
  | cons c rest ih =>
    rw [setDelete]
    by_cases hc : c = ch
    · rw [if_pos hc]
      simp
    · rw [if_neg hc]
      have : ch ∈ rest := by
        rcases List.mem_cons.mp h with h' | h'
        · exact absurd h'.symm hc
        · exact h'
      simp only [List.length_cons]
      rw [← ih this]

theorem setDelete_subset {set : List Channel} {ch : Channel} :
    ∀ x ∈ setDelete set ch, x ∈ set := by
  induction set with
  | nil => intro x hx; simp [setDelete] at hx
  | cons c rest ih =>
    intro x hx
    rw [setDelete] at hx
    by_cases hc : c = ch
    · rw [if_pos hc] at hx
      exact List.mem_cons_of_mem _ hx
    · rw [if_neg hc] at hx
      rcases List.mem_cons.mp hx with h' | h'
      · exact h' ▸ List.mem_cons_self _ _
      · exact List.mem_cons_of_mem _ (ih x h')

theorem not_mem_setDelete_of_nodup {set : List Channel} {ch : Channel}
    (hnd : set.Nodup) : ch ∉ setDelete set ch := by
  induction set with
  | nil => simp [setDelete]
  | cons c rest ih =>
    rw [setDelete]
    rcases List.nodup_cons.mp hnd with ⟨hc, hrest⟩
    by_cases hcc : c = ch
    · rw [if_pos hcc]
      rw [hcc] at hc
      exact hc
    · rw [if_neg hcc]
      intro hmem
      rcases List.mem_cons.mp hmem with h' | h'
      · exact hcc h'.symm
      · exact ih hrest h'

theorem nodup_setDelete {set : List Channel} (ch : Channel) (hnd : set.Nodup) :
    (setDelete set ch).Nodup := by
  induction set with
  | nil => simp [setDelete]
  | cons c rest ih =>
    rw [setDelete]
    rcases List.nodup_cons.mp hnd with ⟨hc, hrest⟩
    by_cases hcc : c = ch
    · rw [if_pos hcc]
      exact hrest
    · rw [if_neg hcc]
      rw [List.nodup_cons]
      exact ⟨fun hmem => hc (setDelete_subset c hmem), ih hrest⟩

theorem mem_setAdd_self (set : List Channel) (ch : Channel) : ch ∈ setAdd set ch := by
  unfold setAdd
  by_cases h : ch ∈ set
  · rw [if_pos h]; exact h
  · rw [if_neg h]
    exact List.mem_append_right _ (List.mem_singleton.mpr rfl)

theorem mem_setAdd {set : List Channel} {ch x : Channel} (h : x ∈ setAdd set ch) :
    x ∈ set ∨ x = ch := by
  unfold setAdd at h
  by_cases hm : ch ∈ set
  · rw [if_pos hm] at h; exact Or.inl h
  · rw [if_neg hm] at h
    rcases List.mem_append.mp h with h' | h'
    · exact Or.inl h'
    · exact Or.inr (List.mem_singleton.mp h')

theorem setAdd_of_not_mem {set : List Channel} {ch : Channel} (h : ch ∉ set) :
    setAdd set ch = set ++ [ch] := by
  unfold setAdd
  rw [if_neg h]

theorem length_setAdd_le (set : List Channel) (ch : Channel) :
    (setAdd set ch).length ≤ set.length + 1 := by
  unfold setAdd
  by_cases h : ch ∈ set
  · rw [if_pos h]; omega
  · rw [if_neg h]; simp

theorem nodup_setAdd {set : List Channel} (ch : Channel) (hnd : set.Nodup) :
    (setAdd set ch).Nodup := by
  unfold setAdd
  by_cases h : ch ∈ set
  · rw [if_pos h]; exact hnd
  · rw [if_neg h]
    rw [List.nodup_append]
    exact ⟨hnd, List.nodup_singleton ch, fun a ha hb => (List.mem_singleton.mp hb ▸ h) ha⟩

/-! ### Lemmas about `keepFresh` and pruning -/

theorem mem_keepFresh {now : Nat} {l : List Notification} {n : Notification}
    (h : n ∈ keepFresh now l) : n ∈ l ∧ now - n.createdAt ≤ NOTIFICATION_TTL_MS := by
  unfold keepFresh at h
  exact ⟨List.mem_of_mem_filter h, by simpa using List.of_mem_filter h⟩

theorem keepFresh_append_fresh (now : Nat) (l : List Notification) {n : Notification}
    (h : now - n.createdAt ≤ NOTIFICATION_TTL_MS) :
    keepFresh now (l ++ [n]) = keepFresh now l ++ [n] := by
  unfold keepFresh
  rw [List.filter_append]
  congr 1
  rw [List.filter_cons, if_pos (by simp only [decide_eq_true_eq]; exact h)]
  rfl

theorem length_keepFresh_le (now : Nat) (l : List Notification) :
    (keepFresh now l).length ≤ l.length :=
  List.length_filter_le _ l

/-- What `pruneOldNotifications` does to one lookup, stated on the raw
association list. -/
theorem mapGet_pruned (now : Nat) (m : List (String × List Notification)) (sid : String)
    (hk : keysNodup m) :
    mapGet ((m.map (fun e => (e.1, keepFresh now e.2))).filter
        (fun e => ¬ e.2.isEmpty)) sid =
      (mapGet m sid).bind (fun l =>
        if (keepFresh now l).isEmpty then none else some (keepFresh now l)) := by
  induction m with
  | nil => simp [mapGet_nil]
  | cons e m ih =>
    have hk' : keysNodup m := by
      unfold keysNodup at hk ⊢
      rw [List.map_cons] at hk
      exact (List.nodup_cons.mp hk).2
    rw [List.map_cons, List.filter_cons]
    by_cases hsid : e.1 = sid
    · have hnone : mapGet m sid = none := by
        have := mapGet_cons_none_of_keysNodup hk
        rwa [hsid] at this
      by_cases hemp : (keepFresh now e.2).isEmpty = true
      · rw [if_neg (by simp only [decide_eq_true_eq]; exact not_not_intro hemp)]
        rw [ih hk', hnone, Option.none_bind, mapGet_cons, if_pos hsid,
          Option.some_bind, if_pos hemp]
      · rw [if_pos (by simp only [decide_eq_true_eq]; exact hemp)]
        rw [mapGet_cons (e.1, keepFresh now e.2)]
        change (if e.1 = sid then some (keepFresh now e.2) else _) = _
        rw [if_pos hsid, mapGet_cons, if_pos hsid, Option.some_bind, if_neg hemp]
    · by_cases hemp : (keepFresh now e.2).isEmpty = true
      · rw [if_neg (by simp only [decide_eq_true_eq]; exact not_not_intro hemp)]
        rw [ih hk', mapGet_cons, if_neg hsid]
      · rw [if_pos (by simp only [decide_eq_true_eq]; exact hemp)]
        rw [mapGet_cons (e.1, keepFresh now e.2)]
        change (if e.1 = sid then some (keepFresh now e.2) else _) = _
        rw [if_neg hsid, ih hk', mapGet_cons, if_neg hsid]

/-! ### What each operation leaves untouched -/

theorem register_frame (sid : String) (ch : Channel) (s : ServerState) :
    (registerConnection sid ch s).recentNotifications = s.recentNotifications ∧
    (registerConnection sid ch s).written = s.written ∧
    (registerConnection sid ch s).metrics.notificationsSent = s.metrics.notificationsSent ∧
    (registerConnection sid ch s).metrics.notificationsStored
      = s.metrics.notificationsStored ∧
    (registerConnection sid ch s).metrics.notificationsEvicted
      = s.metrics.notificationsEvicted ∧
    (registerConnection sid ch s).metrics.connectionsTotal
      = s.metrics.connectionsTotal + 1 := by
  unfold registerConnection
  dsimp only
  split
  · split <;> exact ⟨rfl, rfl, rfl, rfl, rfl, rfl⟩
  · exact ⟨rfl, rfl, rfl, rfl, rfl, rfl⟩

theorem unregister_frame (sid : String) (ch : Channel) (s : ServerState) :
    (unregisterConnection sid ch s).recentNotifications = s.recentNotifications ∧
    (unregisterConnection sid ch s).written = s.written ∧
    (unregisterConnection sid ch s).closedLog = s.closedLog ∧
    (unregisterConnection sid ch s).metrics.notificationsSent
      = s.metrics.notificationsSent ∧
    (unregisterConnection sid ch s).metrics.notificationsStored
      = s.metrics.notificationsStored ∧
    (unregisterConnection sid ch s).metrics.notificationsEvicted
      = s.metrics.notificationsEvicted ∧
    (unregisterConnection sid ch s).metrics.connectionsTotal
      = s.metrics.connectionsTotal := by
  unfold unregisterConnection
  dsimp only
  split
  · exact ⟨rfl, rfl, rfl, rfl, rfl, rfl, rfl⟩
  · split
    · split <;> exact ⟨rfl, rfl, rfl, rfl, rfl, rfl, rfl⟩
    · split <;> exact ⟨rfl, rfl, rfl, rfl, rfl, rfl, rfl⟩

theorem broadcast_frame (sid : String) (payload : Frame) (s : ServerState) :
    (broadcastToStudent sid payload s).2.connections = s.connections ∧
    (broadcastToStudent sid payload s).2.recentNotifications = s.recentNotifications ∧
    (broadcastToStudent sid payload s).2.closedLog = s.closedLog ∧
    (broadcastToStudent sid payload s).2.metrics.connectionsTotal
      = s.metrics.connectionsTotal ∧
    (broadcastToStudent sid payload s).2.metrics.connectionsActive
      = s.metrics.connectionsActive ∧
    (broadcastToStudent sid payload s).2.metrics.notificationsStored
      = s.metrics.notificationsStored ∧
    (broadcastToStudent sid payload s).2.metrics.notificationsEvicted
      = s.metrics.notificationsEvicted := by
  unfold broadcastToStudent
  dsimp only
  split
  · exact ⟨rfl, rfl, rfl, rfl, rfl, rfl, rfl⟩
  · split
    · exact ⟨rfl, rfl, rfl, rfl, rfl, rfl, rfl⟩
    · exact ⟨rfl, rfl, rfl, rfl, rfl, rfl, rfl⟩

theorem prune_frame (now : Nat) (s : ServerState) :
    (pruneOldNotifications now s).connections = s.connections ∧
    (pruneOldNotifications now s).written = s.written ∧
    (pruneOldNotifications now s).closedLog = s.closedLog ∧
    (pruneOldNotifications now s).metrics.connectionsTotal = s.metrics.connectionsTotal ∧
    (pruneOldNotifications now s).metrics.connectionsActive
      = s.metrics.connectionsActive ∧
    (pruneOldNotifications now s).metrics.notificationsSent
      = s.metrics.notificationsSent ∧
    (pruneOldNotifications now s).metrics.notificationsStored
      = s.metrics.notificationsStored :=
  ⟨rfl, rfl, rfl, rfl, rfl, rfl, rfl⟩

theorem append_frame (now : Nat) (n : Notification) (s : ServerState) :
    (addRecentNotification now n s).connections = s.connections ∧
    (addRecentNotification now n s).written = s.written ∧
    (addRecentNotification now n s).closedLog = s.closedLog ∧
    (addRecentNotification now n s).metrics.connectionsTotal
      = s.metrics.connectionsTotal ∧
    (addRecentNotification now n s).metrics.connectionsActive
      = s.metrics.connectionsActive ∧
    (addRecentNotification now n s).metrics.notificationsSent
      = s.metrics.notificationsSent ∧
    (addRecentNotification now n s).metrics.notificationsStored
      = s.metrics.notificationsStored + 1 :=
  ⟨rfl, rfl, rfl, rfl, rfl, rfl, rfl⟩

theorem broadcast_sent_eq (sid : String) (payload : Frame) (s : ServerState) :
    (broadcastToStudent sid payload s).2.metrics.notificationsSent
      = s.metrics.notificationsSent + (broadcastToStudent sid payload s).1 := by
  unfold broadcastToStudent
  dsimp only
  split
  · rfl
  · split
    · rfl
    · rfl

/-- Dropping the entries whose history became empty does not change the total
number of stored notifications. -/
theorem sumLens_filter_nonempty (m : List (String × List Notification)) :
    sumLens (m.filter (fun e => ¬ e.2.isEmpty)) = sumLens m := by
  induction m with
  | nil => rfl
  | cons e m ih =>
    rw [List.filter_cons]
    by_cases hemp : e.2.isEmpty = true
    · rw [if_neg (by simp only [decide_eq_true_eq]; exact not_not_intro hemp)]
      rw [ih, sumLens_cons]
      have : e.2 = [] := by
        cases h : e.2
        · rfl
        · rw [h] at hemp; simp [List.isEmpty] at hemp
      rw [this]
      simp
    · rw [if_pos (by simp only [decide_eq_true_eq]; exact hemp)]
      rw [sumLens_cons, sumLens_cons, ih]

/-- The prune pass converts stored notifications into evicted count
one-for-one: evicted-count plus stored-size is invariant under pruning. -/
theorem prune_accounting (now : Nat) (s : ServerState) :
    (pruneOldNotifications now s).metrics.notificationsEvicted
        + storeCount (pruneOldNotifications now s)
      = s.metrics.notificationsEvicted + storeCount s := by
  show s.metrics.notificationsEvicted
      + (s.recentNotifications.map (fun e => e.2.length - (keepFresh now e.2).length)).sum
      + sumLens ((s.recentNotifications.map (fun e => (e.1, keepFresh now e.2))).filter
          (fun e => ¬ e.2.isEmpty))
    = s.metrics.notificationsEvicted + sumLens s.recentNotifications
  rw [sumLens_filter_nonempty]
  have key : ∀ m : List (String × List Notification),
      (m.map (fun e => e.2.length - (keepFresh now e.2).length)).sum
        + sumLens (m.map (fun e => (e.1, keepFresh now e.2)))
      = sumLens m := by
    intro m
    induction m with
    | nil => rfl
    | cons e m ih =>
      rw [List.map_cons, List.map_cons, List.sum_cons, sumLens_cons, sumLens_cons]
      have hle := length_keepFresh_le now e.2
      show e.2.length - (keepFresh now e.2).length + _
          + ((keepFresh now e.2).length + _) = e.2.length + _
      omega
  rw [← key s.recentNotifications]
  omega

theorem register_active_cases (sid : String) (ch : Channel) (s : ServerState) :
    (registerConnection sid ch s).metrics.connectionsActive
        = s.metrics.connectionsActive + 1 ∨
      (registerConnection sid ch s).metrics.connectionsActive
        = max 0 (s.metrics.connectionsActive - 1) + 1 := by
  unfold registerConnection
  dsimp only
  split
  · split
    · right; rfl
    · left; rfl
  · left; rfl

theorem unregister_active_cases (sid : String) (ch : Channel) (s : ServerState) :
    (unregisterConnection sid ch s).metrics.connectionsActive
        = s.metrics.connectionsActive ∨
      (unregisterConnection sid ch s).metrics.connectionsActive
        = max 0 (s.metrics.connectionsActive - 1) := by
  unfold unregisterConnection
  dsimp only
  split
  · left; rfl
  · split
    · split
      · right; rfl
      · left; rfl
    · split
      · right; rfl
      · left; rfl

/-- Reading a key after the prune pass yields exactly the age-filtered
history (empty when everything was filtered away, because the key is then
deleted). -/
theorem missed_after_prune (now : Nat) (m : List (String × List Notification))
    (sid : String) (hk : keysNodup m) :
    (mapGet ((m.map (fun e => (e.1, keepFresh now e.2))).filter
        (fun e => ¬ e.2.isEmpty)) sid).getD []
      = keepFresh now ((mapGet m sid).getD []) := by
  rw [mapGet_pruned now m sid hk]
  rcases mapGet m sid with _ | l
  · rfl
  · rw [Option.some_bind]
    by_cases hemp : (keepFresh now l).isEmpty = true
    · rw [if_pos hemp]
      have hnil : keepFresh now l = [] := by
        cases hs : keepFresh now l with
        | nil => rfl
        | cons a t => rw [hs] at hemp; simp [List.isEmpty] at hemp
      simp only [Option.getD_some, Option.getD_none]
      rw [hnil]
    · rw [if_neg hemp]
      rfl

/-- Every registered channel whose write succeeds receives the broadcast
payload. -/
theorem broadcast_written_mem (sid : String) (payload : Frame) (s : ServerState) :
    ∀ c ∈ (mapGet s.connections sid).getD [], c.writeOk = true →
      (c.cid, payload) ∈ (broadcastToStudent sid payload s).2.written := by
  intro c hc hw
  rcases h : mapGet s.connections sid with _ | set
  · rw [h] at hc
    simp at hc
  · rw [h] at hc
    simp only [Option.getD_some] at hc
    by_cases hemp : set.isEmpty = true
    · have hnil : set = [] := by
        cases hs : set with
        | nil => rfl
        | cons a t => rw [hs] at hemp; simp [List.isEmpty] at hemp
      rw [hnil] at hc
      simp at hc
    · unfold broadcastToStudent
      rw [h]
      dsimp only
      rw [if_neg hemp]
      dsimp only
      refine List.mem_append_right _
        (List.mem_map.mpr ⟨c, List.mem_filter.mpr ⟨hc, by simp [hw]⟩, rfl⟩)

/-- The channel just registered is in the recipient's set. -/
theorem register_mem_self (sid : String) (ch : Channel) (s : ServerState) :
    ch ∈ (mapGet (registerConnection sid ch s).connections sid).getD [] := by
  unfold registerConnection
  dsimp only
  rw [mapGet_mapSet_self]
  exact mem_setAdd_self _ ch

/-- Appending a not-yet-expired notification leaves the recipient's pruned
history equal to the previous kept history with the new entry at the tail. -/
theorem mapGet_addRecent_self (now : Nat) (n : Notification) (s : ServerState)
    (hk : keysNodup s.recentNotifications)
    (hfresh : now - n.createdAt ≤ NOTIFICATION_TTL_MS) :
    mapGet (addRecentNotification now n s).recentNotifications n.studentId
      = some (keepFresh now ((mapGet s.recentNotifications n.studentId).getD [])
          ++ [n]) := by
  unfold addRecentNotification pruneOldNotifications
  dsimp only
  rw [mapGet_pruned now _ n.studentId (keysNodup_mapSet _ _ hk), mapGet_mapSet_self,
    Option.some_bind,
    keepFresh_append_fresh now (((mapGet s.recentNotifications n.studentId).getD [])) hfresh]
  rw [if_neg (by simp)]

/-! ### The claims -/

/-- C5: `pruneOldNotifications now` removes, for every recipient, exactly the
stored entries whose age exceeds the retention window (afterwards every
remaining element satisfies `now - createdAt <= NOTIFICATION_TTL_MS`, and the
surviving history is exactly the age-filtered one), deletes the recipient's
key entirely when its filtered history is empty, and increments the
evicted-count by exactly the total number of entries removed (stated as:
evicted-count plus stored-size is preserved). -/
theorem C5_pruneCorrectness (now : Nat) (s : ServerState)
    (hk : keysNodup s.recentNotifications) :
    (∀ e ∈ (pruneOldNotifications now s).recentNotifications,
      ∀ n ∈ e.2, now - n.createdAt ≤ NOTIFICATION_TTL_MS) ∧
    (∀ sid, mapGet (pruneOldNotifications now s).recentNotifications sid
      = (mapGet s.recentNotifications sid).bind (fun l =>
          if (keepFresh now l).isEmpty then none else some (keepFresh now l))) ∧
    (pruneOldNotifications now s).metrics.notificationsEvicted
        + storeCount (pruneOldNotifications now s)
      = s.metrics.notificationsEvicted + storeCount s := by
  refine ⟨?_, ?_, prune_accounting now s⟩
  · intro e he n hn
    have hmem := List.mem_of_mem_filter he
    rcases List.mem_map.mp hmem with ⟨e', _, heq⟩
    have hn' : n ∈ keepFresh now e'.2 := by
      rw [← heq] at hn
      exact hn
    exact (mem_keepFresh hn').2
  · intro sid
    exact mapGet_pruned now s.recentNotifications sid hk

theorem C5_pruneCorrectness_witness :
    keysNodup wState5.recentNotifications ∧
    ((∀ e ∈ (pruneOldNotifications 100000000 wState5).recentNotifications,
      ∀ n ∈ e.2, 100000000 - n.createdAt ≤ NOTIFICATION_TTL_MS) ∧
    (∀ sid, mapGet (pruneOldNotifications 100000000 wState5).recentNotifications sid
      = (mapGet wState5.recentNotifications sid).bind (fun l =>
          if (keepFresh 100000000 l).isEmpty then none
          else some (keepFresh 100000000 l))) ∧
    (pruneOldNotifications 100000000 wState5).metrics.notificationsEvicted
        + storeCount (pruneOldNotifications 100000000 wState5)
      = wState5.metrics.notificationsEvicted + storeCount wState5) :=
  ⟨by decide, C5_pruneCorrectness 100000000 wState5 (by decide)⟩

/-- C6: broadcast leaves the registry untouched (in particular a failing
channel is not unregistered), delivers the payload to every registered
channel whose write succeeds regardless of the other channels' failures,
returns the number of successful writes, adds exactly that number to the
sent-count, and returns `0` with the state unchanged when the recipient has
no live channels. -/
theorem C6_broadcastIsolation (sid : String) (payload : Frame) (s : ServerState) :
    (broadcastToStudent sid payload s).2.connections = s.connections ∧
    (broadcastToStudent sid payload s).1
      = (((mapGet s.connections sid).getD []).filter (fun c => c.writeOk)).length ∧
    (broadcastToStudent sid payload s).2.metrics.notificationsSent
      = s.metrics.notificationsSent + (broadcastToStudent sid payload s).1 ∧
    (∀ c ∈ (mapGet s.connections sid).getD [], c.writeOk = true →
      (c.cid, payload) ∈ (broadcastToStudent sid payload s).2.written) ∧
    ((mapGet s.connections sid).getD [] = [] →
      broadcastToStudent sid payload s = (0, s)) := by
  rcases h : mapGet s.connections sid with _ | set
  · refine ⟨?_, ?_, ?_, ?_, ?_⟩ <;>
      simp [broadcastToStudent, h]
  · by_cases hemp : set.isEmpty = true
    · have hnil : set = [] := by
        cases hs : set
        · rfl
        · rw [hs] at hemp; simp [List.isEmpty] at hemp
      refine ⟨?_, ?_, ?_, ?_, ?_⟩ <;>
        simp [broadcastToStudent, h, hnil]
    · have hres : broadcastToStudent sid payload s =
          ((set.filter (fun c => c.writeOk)).length,
            { s with
              written := s.written ++
                (set.filter (fun c => c.writeOk)).map (fun c => (c.cid, payload)),
              metrics := { s.metrics with
                notificationsSent := s.metrics.notificationsSent
                  + (set.filter (fun c => c.writeOk)).length } }) := by
        unfold broadcastToStudent
        rw [h]
        dsimp only
        rw [if_neg hemp]
      refine ⟨?_, ?_, ?_, ?_, ?_⟩
      · rw [hres]
      · rw [hres]
        rfl
      · rw [hres]
      · intro c hc hw
        rw [hres]
        refine List.mem_append_right _ (List.mem_map.mpr ⟨c, ?_, rfl⟩)
        exact List.mem_filter.mpr ⟨hc, by simp [hw]⟩
      · intro hnil
        exact absurd (by rw [show set = [] from hnil]; rfl) hemp

theorem C6_broadcastIsolation_witness :
    (broadcastToStudent "r" (Frame.live "i" "x" 3)
        { initialState with connections := [("r", [⟨1, true⟩, ⟨2, false⟩])] }).2.connections
      = [("r", [⟨1, true⟩, ⟨2, false⟩])] ∧
    (broadcastToStudent "r" (Frame.live "i" "x" 3)
        { initialState with connections := [("r", [⟨1, true⟩, ⟨2, false⟩])] }).1 = 1 ∧
    ((1 : Nat), Frame.live "i" "x" 3) ∈
      (broadcastToStudent "r" (Frame.live "i" "x" 3)
        { initialState with connections := [("r", [⟨1, true⟩, ⟨2, false⟩])] }).2.written := by
  have h := C6_broadcastIsolation "r" (Frame.live "i" "x" 3)
    { initialState with connections := [("r", [⟨1, true⟩, ⟨2, false⟩])] }
  refine ⟨h.1, by rw [h.2.1]; decide, ?_⟩
  refine h.2.2.2.1 ⟨1, true⟩ (by decide) rfl

/-- C4 counterexample: `connectionsActive` is one of the five counters named
by the claim, and it decreases when a registered connection unregisters. -/
theorem C4_activeDecreases_cex :
    (applyOp (Op.unregister "s1" ⟨0, true⟩)
        (applyOp (Op.register "s1" ⟨0, true⟩) initialState)).metrics.connectionsActive
      < (applyOp (Op.register "s1" ⟨0, true⟩) initialState).metrics.connectionsActive := by
  decide

/-- C4 (amended): of the five metrics counters, the four counters
`connectionsTotal`, `notificationsSent`, `notificationsStored` and
`notificationsEvicted` are monotonic under every operation of the system and
there is no reset operation; `connectionsActive` is a gauge that decreases on
unregister and eviction, but it never becomes negative. -/
theorem C4_countersMonotonicExceptActive (op : Op) (s : ServerState) :
    s.metrics.connectionsTotal ≤ (applyOp op s).metrics.connectionsTotal ∧
    s.metrics.notificationsSent ≤ (applyOp op s).metrics.notificationsSent ∧
    s.metrics.notificationsStored ≤ (applyOp op s).metrics.notificationsStored ∧
    s.metrics.notificationsEvicted ≤ (applyOp op s).metrics.notificationsEvicted ∧
    (0 ≤ s.metrics.connectionsActive → 0 ≤ (applyOp op s).metrics.connectionsActive) := by
  cases op with
  | register sid ch =>
    obtain ⟨_, _, h3, h4, h5, h6⟩ := register_frame sid ch s
    refine ⟨by rw [show applyOp (Op.register sid ch) s = registerConnection sid ch s from rfl, h6]; omega,
      le_of_eq h3.symm, le_of_eq h4.symm, le_of_eq h5.symm, ?_⟩
    intro ha
    rcases register_active_cases sid ch s with h | h <;>
      rw [show applyOp (Op.register sid ch) s = registerConnection sid ch s from rfl, h]
    · omega
    · have hm : (0 : Int) ≤ max 0 (s.metrics.connectionsActive - 1) := le_max_left _ _
      omega
  | unregister sid ch =>
    obtain ⟨_, _, _, h4, h5, h6, h7⟩ := unregister_frame sid ch s
    refine ⟨le_of_eq h7.symm, le_of_eq h4.symm, le_of_eq h5.symm, le_of_eq h6.symm, ?_⟩
    intro ha
    rcases unregister_active_cases sid ch s with h | h <;>
      rw [show applyOp (Op.unregister sid ch) s = unregisterConnection sid ch s from rfl, h]
    · exact ha
    · exact le_max_left _ _
  | broadcast sid payload =>
    obtain ⟨_, _, _, h4, h5, h6, h7⟩ := broadcast_frame sid payload s
    refine ⟨le_of_eq h4.symm, ?_, le_of_eq h6.symm, le_of_eq h7.symm, fun ha => h5 ▸ ha⟩
    rw [show applyOp (Op.broadcast sid payload) s = (broadcastToStudent sid payload s).2
      from rfl, broadcast_sent_eq]
    omega
  | append now n =>
    obtain ⟨_, _, _, h4, h5, h6, h7⟩ := append_frame now n s
    refine ⟨le_of_eq h4.symm, le_of_eq h6.symm, by rw [show applyOp (Op.append now n) s
      = addRecentNotification now n s from rfl, h7]; omega, ?_, fun ha => h5 ▸ ha⟩
    show s.metrics.notificationsEvicted ≤ s.metrics.notificationsEvicted + _
    exact Nat.le_add_right _ _
  | prune now =>
    obtain ⟨_, _, _, h4, h5, h6, h7⟩ := prune_frame now s
    refine ⟨le_of_eq h4.symm, le_of_eq h6.symm, le_of_eq h7.symm, ?_, fun ha => h5 ▸ ha⟩
    show s.metrics.notificationsEvicted ≤ s.metrics.notificationsEvicted + _
    exact Nat.le_add_right _ _

theorem C4_countersMonotonicExceptActive_witness :
    initialState.metrics.connectionsTotal
        ≤ (applyOp (Op.register "s1" ⟨0, true⟩) initialState).metrics.connectionsTotal ∧
    (0 ≤ initialState.metrics.connectionsActive →
      0 ≤ (applyOp (Op.register "s1" ⟨0, true⟩) initialState).metrics.connectionsActive) :=
  ⟨(C4_countersMonotonicExceptActive (Op.register "s1" ⟨0, true⟩) initialState).1,
    (C4_countersMonotonicExceptActive (Op.register "s1" ⟨0, true⟩) initialState).2.2.2.2⟩

/-- C3 counterexample: a single `POST /publish` at a time past the TTL
removes the recipient's previously stored notification and increments the
evicted-count by one, because `addRecentNotification` itself calls
`pruneOldNotifications` — so pruning is not performed only by the periodic
maintenance loop. -/
theorem C3_publishPrunes_cex :
    mapGet ((publishHandler 100000000 "new" "s1" "hello" wState5).2).recentNotifications "s1"
        = some [{ id := "new", studentId := "s1", message := "hello",
                  createdAt := 100000000 }] ∧
    ((publishHandler 100000000 "new" "s1" "hello" wState5).2).metrics.notificationsEvicted
      = wState5.metrics.notificationsEvicted + 1 := by
  decide

/-- C3 (amended): removal of stored notifications and evicted-count
increments happen only inside `pruneOldNotifications`, which runs on the
maintenance loop but also on every store append (single and batch publish)
and on every subscribe; the registry operations (register, unregister,
broadcast) never remove stored entries or change the evicted count, and in
every pruning pass the evicted counter grows by exactly the number of
entries removed (evicted-count plus stored-size is preserved, up to the one
entry a publish adds). -/
theorem C3_pruningAccounting (s : ServerState) :
    (∀ sid ch, (registerConnection sid ch s).recentNotifications
        = s.recentNotifications ∧
      (registerConnection sid ch s).metrics.notificationsEvicted
        = s.metrics.notificationsEvicted) ∧
    (∀ sid ch, (unregisterConnection sid ch s).recentNotifications
        = s.recentNotifications ∧
      (unregisterConnection sid ch s).metrics.notificationsEvicted
        = s.metrics.notificationsEvicted) ∧
    (∀ sid payload, (broadcastToStudent sid payload s).2.recentNotifications
        = s.recentNotifications ∧
      (broadcastToStudent sid payload s).2.metrics.notificationsEvicted
        = s.metrics.notificationsEvicted) ∧
    (∀ now, (pruneOldNotifications now s).metrics.notificationsEvicted
        + storeCount (pruneOldNotifications now s)
      = s.metrics.notificationsEvicted + storeCount s) ∧
    (∀ now n, keysNodup s.recentNotifications →
      (addRecentNotification now n s).metrics.notificationsEvicted
          + storeCount (addRecentNotification now n s)
        = s.metrics.notificationsEvicted + storeCount s + 1) ∧
    (∀ now sid ch, ((sseHandler now sid ch s).2).metrics.notificationsEvicted
          + storeCount ((sseHandler now sid ch s).2)
        = s.metrics.notificationsEvicted + storeCount s) := by
  refine ⟨?_, ?_, ?_, fun now => prune_accounting now s, ?_, ?_⟩
  · intro sid ch
    exact ⟨(register_frame sid ch s).1, (register_frame sid ch s).2.2.2.2.1⟩
  · intro sid ch
    exact ⟨(unregister_frame sid ch s).1, (unregister_frame sid ch s).2.2.2.2.2.1⟩
  · intro sid payload
    exact ⟨(broadcast_frame sid payload s).2.1,
      (broadcast_frame sid payload s).2.2.2.2.2.2⟩
  · intro now n hk
    unfold addRecentNotification
    dsimp only
    rw [prune_accounting]
    show s.metrics.notificationsEvicted
        + sumLens (mapSet s.recentNotifications n.studentId
            (((mapGet s.recentNotifications n.studentId).getD []) ++ [n]))
      = s.metrics.notificationsEvicted + sumLens s.recentNotifications + 1
    rcases hl : mapGet s.recentNotifications n.studentId with _ | l
    · simp only [Option.getD_none, List.nil_append]
      rw [sumLens_mapSet_none [n] hl]
      simp
      omega
    · simp only [Option.getD_some]
      have h2 := sumLens_mapSet_some (l ++ [n]) hk hl
      simp only [List.length_append, List.length_cons, List.length_nil] at h2
      omega
  · intro now sid ch
    unfold sseHandler
    dsimp only
    split
    · rfl
    · split
      · show (pruneOldNotifications now _).metrics.notificationsEvicted
            + storeCount (pruneOldNotifications now _)
          = s.metrics.notificationsEvicted + storeCount s
        rw [prune_accounting]
        unfold storeCount
        dsimp only
        rw [(register_frame sid ch s).1, (register_frame sid ch s).2.2.2.2.1]
      · show (registerConnection sid ch s).metrics.notificationsEvicted
            + storeCount (registerConnection sid ch s)
          = s.metrics.notificationsEvicted + storeCount s
        unfold storeCount
        rw [(register_frame sid ch s).1, (register_frame sid ch s).2.2.2.2.1]

theorem C3_pruningAccounting_witness :
    keysNodup wState5.recentNotifications ∧
    (addRecentNotification 100000000
        { id := "x", studentId := "s1", message := "m", createdAt := 100000000 }
        wState5).metrics.notificationsEvicted
      + storeCount (addRecentNotification 100000000
          { id := "x", studentId := "s1", message := "m", createdAt := 100000000 }
          wState5)
      = wState5.metrics.notificationsEvicted + storeCount wState5 + 1 :=
  ⟨by decide,
    (C3_pruningAccounting wState5).2.2.2.2.1 100000000
      { id := "x", studentId := "s1", message := "m", createdAt := 100000000 }
      (by decide)⟩

/-- C8: the publish endpoint answers `400` exactly when `studentId` or
`message` is missing/empty, and then leaves the whole state (store, registry
and all counters) unchanged; on valid input it answers `202` carrying the
fresh notification id, the recipient's stored history afterwards ends with
the new notification (it was appended to the store before the broadcast ran),
and the notification was broadcast as a `live` frame to every registered
channel of the recipient whose write succeeds. -/
theorem C8_publishValidation (now : Nat) (freshId studentId message : String)
    (s : ServerState) (hk : keysNodup s.recentNotifications) :
    ((publishHandler now freshId studentId message s).1
        = HttpResponse.badRequest "studentId and message required"
      ↔ (studentId = "" ∨ message = "")) ∧
    (studentId = "" ∨ message = "" →
      (publishHandler now freshId studentId message s).2 = s) ∧
    (¬ (studentId = "" ∨ message = "") →
      (publishHandler now freshId studentId message s).1
          = HttpResponse.accepted freshId ∧
      mapGet (publishHandler now freshId studentId message s).2.recentNotifications
          studentId
        = some (keepFresh now ((mapGet s.recentNotifications studentId).getD [])
            ++ [{ id := freshId, studentId := studentId, message := message,
                  createdAt := now }]) ∧
      (∀ c ∈ (mapGet s.connections studentId).getD [], c.writeOk = true →
        (c.cid, Frame.live freshId message now)
          ∈ (publishHandler now freshId studentId message s).2.written)) := by
  by_cases hv : studentId = "" ∨ message = ""
  · refine ⟨?_, fun _ => ?_, fun hcon => absurd hv hcon⟩
    · unfold publishHandler
      rw [if_pos hv]
      simp [hv]
    · unfold publishHandler
      rw [if_pos hv]
  · refine ⟨?_, fun hcon => absurd hcon hv, fun _ => ⟨?_, ?_, ?_⟩⟩
    · unfold publishHandler
      rw [if_neg hv]
      simp [hv]
    · unfold publishHandler
      rw [if_neg hv]
    · unfold publishHandler
      rw [if_neg hv]
      dsimp only
      rw [(broadcast_frame studentId (Frame.live freshId message now)
        (addRecentNotification now
          { id := freshId, studentId := studentId, message := message, createdAt := now }
          s)).2.1]
      exact mapGet_addRecent_self now
        { id := freshId, studentId := studentId, message := message, createdAt := now }
        s hk (by simp)
    · intro c hc hw
      unfold publishHandler
      rw [if_neg hv]
      dsimp only
      exact broadcast_written_mem studentId (Frame.live freshId message now)
        (addRecentNotification now
          { id := freshId, studentId := studentId, message := message, createdAt := now }
          s) c hc hw

theorem C8_publishValidation_witness :
    keysNodup wState5.recentNotifications ∧
    ¬ (("s1" : String) = "" ∨ ("msg" : String) = "") ∧
    (publishHandler 90000001 "fid" "s1" "msg" wState5).1 = HttpResponse.accepted "fid" :=
  ⟨by decide, by decide,
    ((C8_publishValidation 90000001 "fid" "s1" "msg" wState5 (by decide)).2.2
      (by decide)).1⟩

/-- C9: on a valid subscribe with a healthy channel, the handler registers
the channel (it is afterwards in the recipient's set and is reached by any
later live broadcast for that recipient), then writes the connected marker,
then replays exactly the recipient's kept stored history, oldest first, as
`missed` frames addressed to this channel only; with no stored history the
replay is empty. -/
theorem C9_subscribeReplay (now : Nat) (studentId : String) (ch : Channel)
    (s : ServerState) (hsid : ¬ studentId = "") (hch : ch.writeOk = true)
    (hk : keysNodup s.recentNotifications) :
    (sseHandler now studentId ch s).1 = HttpResponse.streamOpen ∧
    (sseHandler now studentId ch s).2.written
      = s.written ++ [(ch.cid, Frame.connected now)]
        ++ (keepFresh now ((mapGet s.recentNotifications studentId).getD [])).map
            (fun n => (ch.cid, Frame.missed n.id n.message n.createdAt)) ∧
    ch ∈ (mapGet (sseHandler now studentId ch s).2.connections studentId).getD [] ∧
    (∀ payload, (ch.cid, payload)
      ∈ (broadcastToStudent studentId payload
          (sseHandler now studentId ch s).2).2.written) ∧
    ((mapGet s.recentNotifications studentId).getD [] = [] →
      (sseHandler now studentId ch s).2.written
        = s.written ++ [(ch.cid, Frame.connected now)]) := by
  have hk1 : keysNodup (registerConnection studentId ch s).recentNotifications := by
    rw [(register_frame studentId ch s).1]
    exact hk
  have hwr : (sseHandler now studentId ch s).2.written
      = s.written ++ [(ch.cid, Frame.connected now)]
        ++ (keepFresh now ((mapGet s.recentNotifications studentId).getD [])).map
            (fun n => (ch.cid, Frame.missed n.id n.message n.createdAt)) := by
    unfold sseHandler
    rw [if_neg hsid, if_pos hch]
    unfold pruneOldNotifications
    dsimp only
    rw [missed_after_prune now _ studentId hk1,
      (register_frame studentId ch s).1, (register_frame studentId ch s).2.1,
      List.append_assoc]
  have hconn : (sseHandler now studentId ch s).2.connections
      = (registerConnection studentId ch s).connections := by
    unfold sseHandler
    rw [if_neg hsid, if_pos hch]
    rfl
  have hmem : ch ∈ (mapGet (sseHandler now studentId ch s).2.connections
      studentId).getD [] := by
    rw [hconn]
    exact register_mem_self studentId ch s
  refine ⟨?_, hwr, hmem, ?_, ?_⟩
  · unfold sseHandler
    rw [if_neg hsid, if_pos hch]
  · intro payload
    exact broadcast_written_mem studentId payload (sseHandler now studentId ch s).2
      ch hmem hch
  · intro hempty
    rw [hwr, hempty]
    show s.written ++ [(ch.cid, Frame.connected now)]
        ++ (keepFresh now []).map (fun n => (ch.cid, Frame.missed n.id n.message n.createdAt))
      = s.written ++ [(ch.cid, Frame.connected now)]
    simp [keepFresh]

/-- C1: for every interleaving of the steps of one `publish(r, m)` (store
append, then live broadcast) with the steps of one `subscribe(r, c)` on a
healthy channel (registration, then connected-marker/prune/missed-replay),
channel `c` receives `m` at least once — as a `missed` replay frame or as a
`live` broadcast frame — never zero times: publish appends to the store
before broadcasting and subscribe registers the channel before taking the
missed-history snapshot. -/
theorem C1_atLeastOnceDelivery (sc : RaceScenario) (hch : sc.ch.writeOk = true)
    (sched : List DeliveryStep)
    (hs : sched ∈ interleavings publishSteps subscribeSteps) :
    deliveredM sc (runSchedule sc sched initialState) := by
  have hlist : interleavings publishSteps subscribeSteps =
      [[.storeAppend, .liveBroadcast, .registerStep, .replayStep],
       [.storeAppend, .registerStep, .liveBroadcast, .replayStep],
       [.storeAppend, .registerStep, .replayStep, .liveBroadcast],
       [.registerStep, .storeAppend, .liveBroadcast, .replayStep],
       [.registerStep, .storeAppend, .replayStep, .liveBroadcast],
       [.registerStep, .replayStep, .storeAppend, .liveBroadcast]] := rfl
  rw [hlist] at hs
  simp only [List.mem_cons, List.not_mem_nil, or_false] at hs
  rcases hs with rfl | rfl | rfl | rfl | rfl | rfl <;>
    simp [deliveredM, runSchedule, execStep, hch, addRecentNotification,
      pruneOldNotifications, broadcastToStudent, registerConnection, initialState,
      mapGet, mapSet, mapDelete, setAdd, setDelete, keepFresh, Nat.sub_self,
      MAX_CONNECTIONS_PER_STUDENT, NOTIFICATION_TTL_MS]

theorem mapGet_unregister_self (sid : String) (ch : Channel) (s : ServerState) :
    mapGet (unregisterConnection sid ch s).connections sid
      = (mapGet s.connections sid).bind (fun l =>
          if (setDelete l ch).isEmpty then none else some (setDelete l ch)) := by
  rcases hl : mapGet s.connections sid with _ | l
  · unfold unregisterConnection
    rw [hl]
    exact hl
  · unfold unregisterConnection
    rw [hl, Option.some_bind]
    dsimp only
    by_cases hemp : (setDelete l ch).isEmpty = true
    · rw [if_pos hemp, if_pos hemp, mapGet_mapDelete_self]
    · rw [if_neg hemp, if_neg hemp, mapGet_mapSet_self]

theorem keysNodup_unregister (sid : String) (ch : Channel) (s : ServerState)
    (hk : keysNodup s.connections) :
    keysNodup (unregisterConnection sid ch s).connections := by
  unfold unregisterConnection
  dsimp only
  split
  · exact hk
  · split
    · exact keysNodup_mapDelete sid (keysNodup_mapSet sid _ hk)
    · exact keysNodup_mapSet sid _ hk

/-- When the channel is not in the recipient's (non-empty) set, and the
registry has no duplicate keys, unregister changes nothing at all. -/
theorem unregister_noop (sid : String) (ch : Channel) (t : ServerState)
    (hk : keysNodup t.connections)
    (h : ∀ l, mapGet t.connections sid = some l → ch ∉ l ∧ ¬ l.isEmpty = true) :
    unregisterConnection sid ch t = t := by
  rcases hl : mapGet t.connections sid with _ | set
  · unfold unregisterConnection
    rw [hl]
  · obtain ⟨hmem, hne⟩ := h set hl
    unfold unregisterConnection
    rw [hl]
    dsimp only
    rw [if_neg hmem, setDelete_of_not_mem hmem, mapSet_self hk hl, if_neg hne]

/-- C7: `unregisterConnection` removes the channel when present — deleting
the recipient's key when the set becomes empty — and then decrements the
active-count by exactly one; when the channel (or the key) is absent nothing
changes; running it a second time on the same pair is a complete no-op; and
the active-count never becomes negative. -/
theorem C7_idempotentDisconnect (sid : String) (ch : Channel) (s : ServerState)
    (hk : keysNodup s.connections)
    (hnd : ∀ e ∈ s.connections, e.2.Nodup)
    (hInv : s.metrics.connectionsActive = (totalChannels s : Int)) :
    (∀ l, mapGet s.connections sid = some l → ch ∈ l →
      ((setDelete l ch).isEmpty = true →
        mapGet (unregisterConnection sid ch s).connections sid = none) ∧
      (¬ (setDelete l ch).isEmpty = true →
        mapGet (unregisterConnection sid ch s).connections sid
          = some (setDelete l ch)) ∧
      (unregisterConnection sid ch s).metrics.connectionsActive
        = s.metrics.connectionsActive - 1) ∧
    (mapGet s.connections sid = none → unregisterConnection sid ch s = s) ∧
    (∀ l, mapGet s.connections sid = some l → ch ∉ l →
      (unregisterConnection sid ch s).metrics = s.metrics) ∧
    unregisterConnection sid ch (unregisterConnection sid ch s)
      = unregisterConnection sid ch s ∧
    0 ≤ (unregisterConnection sid ch s).metrics.connectionsActive := by
  refine ⟨?_, ?_, ?_, ?_, ?_⟩
  · intro l hl hmem
    have hone : (1 : Int) ≤ s.metrics.connectionsActive := by
      rw [hInv]
      have h1 : 1 ≤ l.length := List.length_pos.mpr (List.ne_nil_of_mem hmem)
      have h2 : l.length ≤ totalChannels s := length_le_sumLens (mapGet_mem hl)
      omega
    refine ⟨?_, ?_, ?_⟩
    · intro hemp
      rw [mapGet_unregister_self, hl, Option.some_bind, if_pos hemp]
    · intro hemp
      rw [mapGet_unregister_self, hl, Option.some_bind, if_neg hemp]
    · unfold unregisterConnection
      rw [hl]
      dsimp only
      rw [if_pos hmem]
      exact max_eq_right (by omega)
  · intro hl
    unfold unregisterConnection
    rw [hl]
  · intro l hl hmem
    unfold unregisterConnection
    rw [hl]
    dsimp only
    rw [if_neg hmem]
  · refine unregister_noop sid ch _ (keysNodup_unregister sid ch s hk) ?_
    intro l' hl'
    rw [mapGet_unregister_self] at hl'
    rcases hl : mapGet s.connections sid with _ | l
    · rw [hl] at hl'
      simp at hl'
    · rw [hl, Option.some_bind] at hl'
      by_cases hemp : (setDelete l ch).isEmpty = true
      · rw [if_pos hemp] at hl'
        cases hl'
      · rw [if_neg hemp] at hl'
        have hl'' : l' = setDelete l ch := by
          cases hl'
          rfl
        subst hl''
        refine ⟨?_, hemp⟩
        by_cases hch : ch ∈ l
        · exact not_mem_setDelete_of_nodup (hnd (sid, l) (mapGet_mem hl))
        · rw [setDelete_of_not_mem hch]
          exact hch
  · rcases unregister_active_cases sid ch s with h | h <;> rw [h]
    · rw [hInv]
      exact Int.natCast_nonneg _
    · exact le_max_left _ _

theorem C7_idempotentDisconnect_witness :
    keysNodup wState7.connections ∧
    (∀ e ∈ wState7.connections, e.2.Nodup) ∧
    wState7.metrics.connectionsActive = (totalChannels wState7 : Int) ∧
    unregisterConnection "a" ⟨7, true⟩ (unregisterConnection "a" ⟨7, true⟩ wState7)
      = unregisterConnection "a" ⟨7, true⟩ wState7 ∧
    0 ≤ (unregisterConnection "a" ⟨7, true⟩ wState7).metrics.connectionsActive :=
  ⟨by decide, by decide, by decide,
    (C7_idempotentDisconnect "a" ⟨7, true⟩ wState7 (by decide) (by decide)
      (by decide)).2.2.2.1,
    (C7_idempotentDisconnect "a" ⟨7, true⟩ wState7 (by decide) (by decide)
      (by decide)).2.2.2.2⟩

theorem C1_atLeastOnceDelivery_witness :
    (Channel.mk 0 true).writeOk = true ∧
    [DeliveryStep.registerStep, .replayStep, .storeAppend, .liveBroadcast]
      ∈ interleavings publishSteps subscribeSteps ∧
    deliveredM
      { studentId := "s1", message := "grade", freshId := "n1", ch := ⟨0, true⟩, now := 5 }
      (runSchedule
        { studentId := "s1", message := "grade", freshId := "n1", ch := ⟨0, true⟩, now := 5 }
        [.registerStep, .replayStep, .storeAppend, .liveBroadcast] initialState) :=
  ⟨rfl, by decide, C1_atLeastOnceDelivery _ rfl _ (by decide)⟩

/-- Registering below the limit evicts nobody: the set just grows by the new
channel at the tail. -/
theorem register_no_evict (sid : String) (ch : Channel) (s : ServerState)
    (hlen : ¬ MAX_CONNECTIONS_PER_STUDENT
        ≤ ((mapGet s.connections sid).getD []).length) :
    mapGet (registerConnection sid ch s).connections sid
        = some (setAdd ((mapGet s.connections sid).getD []) ch) ∧
    (registerConnection sid ch s).closedLog = s.closedLog := by
  unfold registerConnection
  dsimp only
  rw [if_neg hlen]
  exact ⟨mapGet_mapSet_self _ _ _, rfl⟩

/-- Registering at the limit closes and removes the first-inserted (oldest)
channel of the set before adding the new one. -/
theorem register_evict (sid : String) (ch : Channel) (s : ServerState)
    (c : Channel) (t : List Channel)
    (hg : mapGet s.connections sid = some (c :: t))
    (hlen : MAX_CONNECTIONS_PER_STUDENT ≤ (c :: t).length) :
    mapGet (registerConnection sid ch s).connections sid = some (setAdd t ch) ∧
    (registerConnection sid ch s).closedLog = s.closedLog ++ [c.cid] := by
  unfold registerConnection
  dsimp only
  rw [hg]
  simp only [Option.getD_some]
  rw [if_pos hlen]
  dsimp only [List.head?]
  have hdel : setDelete (c :: t) c = t := by
    rw [setDelete, if_pos rfl]
  rw [hdel]
  exact ⟨mapGet_mapSet_self _ _ _, rfl⟩

/-- One operation cannot push any recipient's set beyond the limit. -/
theorem bound_applyOp (op : Op) (s : ServerState)
    (h : ∀ e ∈ s.connections, e.2.length ≤ MAX_CONNECTIONS_PER_STUDENT) :
    ∀ e ∈ (applyOp op s).connections, e.2.length ≤ MAX_CONNECTIONS_PER_STUDENT := by
  cases op with
  | register sid ch =>
    intro e he
    dsimp only [applyOp] at he
    have hset0 : ((mapGet s.connections sid).getD []).length
        ≤ MAX_CONNECTIONS_PER_STUDENT := by
      rcases hg : mapGet s.connections sid with _ | l
      · simp [MAX_CONNECTIONS_PER_STUDENT]
      · exact h (sid, l) (mapGet_mem hg)
    by_cases hc : MAX_CONNECTIONS_PER_STUDENT
        ≤ ((mapGet s.connections sid).getD []).length
    · rcases hh : ((mapGet s.connections sid).getD []).head? with _ | c
      · rw [List.head?_eq_none_iff] at hh
        rw [hh] at hc
        simp [MAX_CONNECTIONS_PER_STUDENT] at hc
      · unfold registerConnection at he
        dsimp only at he
        rw [if_pos hc, hh] at he
        dsimp only at he
        rcases mem_mapSet he with h' | h'
        · exact h e h'
        · rw [h']
          have hcm : c ∈ (mapGet s.connections sid).getD [] := by
            have hne : (mapGet s.connections sid).getD [] ≠ [] := by
              intro hx
              rw [hx] at hh
              cases hh
            rcases hx : (mapGet s.connections sid).getD [] with _ | ⟨a, t⟩
            · exact absurd hx hne
            · rw [hx] at hh
              cases hh
              exact List.mem_cons_self _ _
          have hdel := length_setDelete_of_mem hcm
          have hadd := length_setAdd_le
            (setDelete ((mapGet s.connections sid).getD []) c) ch
          show (setAdd (setDelete ((mapGet s.connections sid).getD []) c) ch).length
              ≤ MAX_CONNECTIONS_PER_STUDENT
          omega
    · unfold registerConnection at he
      dsimp only at he
      rw [if_neg hc] at he
      rcases mem_mapSet he with h' | h'
      · exact h e h'
      · rw [h']
        have hadd := length_setAdd_le ((mapGet s.connections sid).getD []) ch
        show (setAdd ((mapGet s.connections sid).getD []) ch).length
            ≤ MAX_CONNECTIONS_PER_STUDENT
        omega
  | unregister sid ch =>
    intro e he
    dsimp only [applyOp] at he
    rcases hg : mapGet s.connections sid with _ | set
    · unfold unregisterConnection at he
      rw [hg] at he
      exact h e he
    · unfold unregisterConnection at he
      rw [hg] at he
      dsimp only at he
      have hsetle : set.length ≤ MAX_CONNECTIONS_PER_STUDENT := h (sid, set) (mapGet_mem hg)
      have hdelle : (setDelete set ch).length ≤ set.length := by
        by_cases hm : ch ∈ set
        · have := length_setDelete_of_mem hm
          omega
        · rw [setDelete_of_not_mem hm]
      split at he
      · rcases mem_mapSet (mem_mapDelete he) with h' | h'
        · exact h e h'
        · rw [h']
          show (setDelete set ch).length ≤ MAX_CONNECTIONS_PER_STUDENT
          omega
      · rcases mem_mapSet he with h' | h'
        · exact h e h'
        · rw [h']
          show (setDelete set ch).length ≤ MAX_CONNECTIONS_PER_STUDENT
          omega
  | broadcast sid payload =>
    intro e he
    rw [show (applyOp (Op.broadcast sid payload) s).connections
        = s.connections from (broadcast_frame sid payload s).1] at he
    exact h e he
  | append now n =>
    exact fun e he => h e he
  | prune now =>
    exact fun e he => h e he

/-- The bound holds in every state reachable from process start. -/
theorem bound_trace (ops : List Op) :
    ∀ e ∈ (applyOps ops initialState).connections,
      e.2.length ≤ MAX_CONNECTIONS_PER_STUDENT := by
  suffices hgen : ∀ ops : List Op, ∀ s : ServerState,
      (∀ e ∈ s.connections, e.2.length ≤ MAX_CONNECTIONS_PER_STUDENT) →
      ∀ e ∈ (applyOps ops s).connections, e.2.length ≤ MAX_CONNECTIONS_PER_STUDENT by
    exact hgen ops initialState (by intro e he; cases he)
  intro ops
  induction ops with
  | nil => exact fun s h => h
  | cons op ops ih =>
    intro s h
    exact ih (applyOp op s) (bound_applyOp op s h)

theorem applyOps_append (l1 l2 : List Op) (s : ServerState) :
    applyOps (l1 ++ l2) s = applyOps l2 (applyOps l1 s) := by
  unfold applyOps
  exact List.foldl_append _ _ _ _

theorem applyOps_singleton (op : Op) (s : ServerState) :
    applyOps [op] s = applyOp op s := rfl

/-- Registering a sequence of distinct channels for one student starting
from the initial state keeps exactly the last `MAX_CONNECTIONS_PER_STUDENT`
of them, in registration order, and closes exactly the earlier ones, in
registration order. -/
theorem registerAll (sid : String) (chs : List Channel) (hnd : chs.Nodup) :
    mapGet (applyOps (chs.map (Op.register sid)) initialState).connections sid
        = (if chs.isEmpty then none
          else some (chs.drop (chs.length - MAX_CONNECTIONS_PER_STUDENT))) ∧
    (applyOps (chs.map (Op.register sid)) initialState).closedLog
        = (chs.take (chs.length - MAX_CONNECTIONS_PER_STUDENT)).map Channel.cid := by
  induction chs using List.reverseRecOn with
  | nil => exact ⟨rfl, rfl⟩
  | append_singleton chs c ih =>
    have hnd' : chs.Nodup ∧ c ∉ chs := by
      rw [List.nodup_append] at hnd
      exact ⟨hnd.1, fun hmem => hnd.2.2 hmem (List.mem_singleton.mpr rfl)⟩
    obtain ⟨ih1, ih2⟩ := ih hnd'.1
    have hc : c ∉ chs := hnd'.2
    rw [List.map_append, applyOps_append,
      show (List.map (Op.register sid) [c]) = [Op.register sid c] from rfl,
      applyOps_singleton]
    by_cases hemp : chs.isEmpty = true
    · have hnil : chs = [] := by
        cases hx : chs with
        | nil => rfl
        | cons a t => rw [hx] at hemp; simp [List.isEmpty] at hemp
      subst hnil
      constructor <;>
        simp [applyOps, applyOp, registerConnection, initialState, mapGet, mapSet,
          setAdd, MAX_CONNECTIONS_PER_STUDENT]
    · rw [if_neg hemp] at ih1
      by_cases hmax : MAX_CONNECTIONS_PER_STUDENT ≤ chs.length
      · have hkeptlen : (chs.drop (chs.length - MAX_CONNECTIONS_PER_STUDENT)).length
            = MAX_CONNECTIONS_PER_STUDENT := by
          rw [List.length_drop]
          omega
        rcases hk : chs.drop (chs.length - MAX_CONNECTIONS_PER_STUDENT) with _ | ⟨c0, t⟩
        · rw [hk] at hkeptlen
          simp [MAX_CONNECTIONS_PER_STUDENT] at hkeptlen
        · rw [hk] at ih1 hkeptlen
          have hev := register_evict sid c
            (applyOps (chs.map (Op.register sid)) initialState) c0 t ih1
            (le_of_eq hkeptlen.symm)
          have hM : MAX_CONNECTIONS_PER_STUDENT = 3 := rfl
          have hlen' : (chs ++ [c]).length - MAX_CONNECTIONS_PER_STUDENT
              = chs.length - MAX_CONNECTIONS_PER_STUDENT + 1 := by
            simp only [List.length_append, List.length_cons, List.length_nil]
            omega
          have hle : chs.length - MAX_CONNECTIONS_PER_STUDENT + 1 ≤ chs.length := by
            omega
          constructor
          · dsimp only [applyOp]
            rw [hev.1]
            have hct : c ∉ t := fun hmem => hc (List.mem_of_mem_drop
              (by rw [hk]; exact List.mem_cons_of_mem _ hmem))
            rw [setAdd_of_not_mem hct]
            rw [if_neg (by simp)]
            congr 1
            have ht : t = chs.drop (chs.length - MAX_CONNECTIONS_PER_STUDENT + 1) := by
              rw [← List.tail_drop, hk]
              rfl
            rw [hlen', List.drop_append_of_le_length hle, ht]
          · dsimp only [applyOp]
            rw [hev.2, ih2, hlen', List.take_append_of_le_length hle,
              List.take_succ]
            have hget : chs[chs.length - MAX_CONNECTIONS_PER_STUDENT]? = some c0 := by
              rw [← List.head?_drop, hk]
              rfl
            rw [hget]
            simp
      · have hdrop0 : chs.length - MAX_CONNECTIONS_PER_STUDENT = 0 := by omega
        rw [hdrop0, List.drop_zero] at ih1
        have hnoev := register_no_evict sid c
          (applyOps (chs.map (Op.register sid)) initialState)
          (by rw [ih1]; simp only [Option.getD_some]; omega)
        have hlen1 : (chs ++ [c]).length - MAX_CONNECTIONS_PER_STUDENT = 0 := by
          simp only [List.length_append, List.length_cons, List.length_nil]
          omega
        constructor
        · dsimp only [applyOp]
          rw [hnoev.1, ih1]
          simp only [Option.getD_some]
          rw [setAdd_of_not_mem hc, if_neg (by simp), hlen1, List.drop_zero]
        · dsimp only [applyOp]
          rw [hnoev.2, ih2, hdrop0, hlen1]
          simp

/-- C2: every recipient's channel set stays within
`MAX_CONNECTIONS_PER_STUDENT` in every state reachable from process start;
after registering N > max successive distinct channels the recipient holds
exactly the last max of them (so exactly max channels), the earlier N - max
channels were closed in registration order, and in general an eviction
closes exactly the first-inserted channel of the currently-held set. -/
theorem C2_boundedFanOutEviction :
    (∀ ops : List Op, ∀ e ∈ (applyOps ops initialState).connections,
      e.2.length ≤ MAX_CONNECTIONS_PER_STUDENT) ∧
    (∀ (sid : String) (chs : List Channel), chs.Nodup →
      MAX_CONNECTIONS_PER_STUDENT < chs.length →
      mapGet (applyOps (chs.map (Op.register sid)) initialState).connections sid
          = some (chs.drop (chs.length - MAX_CONNECTIONS_PER_STUDENT)) ∧
      (chs.drop (chs.length - MAX_CONNECTIONS_PER_STUDENT)).length
          = MAX_CONNECTIONS_PER_STUDENT ∧
      (applyOps (chs.map (Op.register sid)) initialState).closedLog
          = (chs.take (chs.length - MAX_CONNECTIONS_PER_STUDENT)).map Channel.cid) ∧
    (∀ (sid : String) (ch : Channel) (s : ServerState) (c : Channel)
        (t : List Channel),
      mapGet s.connections sid = some (c :: t) →
      MAX_CONNECTIONS_PER_STUDENT ≤ (c :: t).length →
      (registerConnection sid ch s).closedLog = s.closedLog ++ [c.cid]) := by
  refine ⟨bound_trace, ?_, ?_⟩
  · intro sid chs hnd hlt
    obtain ⟨h1, h2⟩ := registerAll sid chs hnd
    have hne : ¬ chs.isEmpty = true := by
      intro hx
      have hnil : chs = [] := by
        cases hxx : chs with
        | nil => rfl
        | cons a t => rw [hxx] at hx; simp [List.isEmpty] at hx
      rw [hnil] at hlt
      simp [MAX_CONNECTIONS_PER_STUDENT] at hlt
    rw [if_neg hne] at h1
    refine ⟨h1, ?_, h2⟩
    rw [List.length_drop]
    omega
  · intro sid ch s c t hg hlen
    exact (register_evict sid ch s c t hg hlen).2

/-- Full characterization of a register call that evicts nobody. -/
theorem register_eq_no_evict (sid : String) (ch : Channel) (s : ServerState)
    (hlen : ¬ MAX_CONNECTIONS_PER_STUDENT
        ≤ ((mapGet s.connections sid).getD []).length) :
    registerConnection sid ch s =
      { s with
        connections := mapSet s.connections sid
          (setAdd ((mapGet s.connections sid).getD []) ch),
        metrics := { s.metrics with
          connectionsTotal := s.metrics.connectionsTotal + 1,
          connectionsActive := s.metrics.connectionsActive + 1 } } := by
  unfold registerConnection
  dsimp only
  rw [if_neg hlen]

/-- Full characterization of a register call that evicts the oldest
channel. -/
theorem register_eq_evict (sid : String) (ch : Channel) (s : ServerState)
    (c : Channel) (t : List Channel)
    (hg : mapGet s.connections sid = some (c :: t))
    (hlen : MAX_CONNECTIONS_PER_STUDENT ≤ (c :: t).length) :
    registerConnection sid ch s =
      { s with
        connections := mapSet s.connections sid (setAdd t ch),
        closedLog := s.closedLog ++ [c.cid],
        metrics := { s.metrics with
          connectionsTotal := s.metrics.connectionsTotal + 1,
          connectionsActive := max 0 (s.metrics.connectionsActive - 1) + 1 } } := by
  unfold registerConnection
  dsimp only
  rw [hg]
  simp only [Option.getD_some]
  rw [if_pos hlen]
  dsimp only [List.head?]
  have hdel : setDelete (c :: t) c = t := by
    rw [setDelete, if_pos rfl]
  rw [hdel]

/-- Registering a channel not currently held anywhere preserves the
active-count/held-channels equality, key uniqueness, and the freshness of
every other channel. -/
theorem register_inv (sid : String) (ch : Channel) (s : ServerState)
    (hk : keysNodup s.connections) (hfresh : chanFresh ch s)
    (hInv : s.metrics.connectionsActive = (totalChannels s : Int)) :
    (registerConnection sid ch s).metrics.connectionsActive
        = (totalChannels (registerConnection sid ch s) : Int) ∧
    keysNodup (registerConnection sid ch s).connections ∧
    (∀ ch', ch' ≠ ch → chanFresh ch' s →
      chanFresh ch' (registerConnection sid ch s)) := by
  by_cases hc : MAX_CONNECTIONS_PER_STUDENT
      ≤ ((mapGet s.connections sid).getD []).length
  · rcases hg : mapGet s.connections sid with _ | l
    · rw [hg] at hc
      simp [MAX_CONNECTIONS_PER_STUDENT] at hc
    · rcases hx : l with _ | ⟨c, t⟩
      · rw [hg, hx] at hc
        simp [MAX_CONNECTIONS_PER_STUDENT] at hc
      · subst hx
        have hreq := register_eq_evict sid ch s c t hg
          (by rw [hg] at hc; simpa using hc)
        have hmemct : ch ∉ (c :: t) := hfresh (sid, c :: t) (mapGet_mem hg)
        have hcht : ch ∉ t := fun hmem => hmemct (List.mem_cons_of_mem _ hmem)
        have hadd : setAdd t ch = t ++ [ch] := setAdd_of_not_mem hcht
        have hsum := sumLens_mapSet_some (setAdd t ch) hk hg
        rw [hadd] at hsum
        simp only [List.length_append, List.length_cons, List.length_nil] at hsum
        have hlen := length_le_sumLens (mapGet_mem hg)
        simp only [List.length_cons] at hlen
        refine ⟨?_, ?_, ?_⟩
        · rw [hreq]
          dsimp only [totalChannels]
          have hge1 : (1 : Int) ≤ s.metrics.connectionsActive := by
            rw [hInv]
            have h1 : 1 ≤ totalChannels s := by
              unfold totalChannels
              omega
            exact_mod_cast h1
          rw [max_eq_right (by omega), hInv]
          rw [show totalChannels s = sumLens s.connections from rfl]
          have h2 : sumLens (mapSet s.connections sid (setAdd t ch))
              = sumLens s.connections := by
            rw [hadd]
            omega
          rw [h2]
          omega
        · rw [hreq]
          exact keysNodup_mapSet _ _ hk
        · intro ch' hne hfr'
          rw [hreq]
          intro e he
          rcases mem_mapSet he with h' | h'
          · exact hfr' e h'
          · rw [h']
            dsimp only
            rw [hadd]
            intro hmem
            rcases List.mem_append.mp hmem with h'' | h''
            · exact hfr' (sid, c :: t) (mapGet_mem hg) (List.mem_cons_of_mem _ h'')
            · exact hne (List.mem_singleton.mp h'')
  · have hreq := register_eq_no_evict sid ch s hc
    rcases hg : mapGet s.connections sid with _ | l
    · have hset0 : (mapGet s.connections sid).getD [] = [] := by
        rw [hg]
        rfl
      have hadd : setAdd ((mapGet s.connections sid).getD []) ch = [ch] := by
        rw [hset0, setAdd_of_not_mem (by simp)]
        rfl
      have hsum : sumLens (mapSet s.connections sid
          (setAdd ((mapGet s.connections sid).getD []) ch))
          = sumLens s.connections + 1 := by
        rw [hadd, sumLens_mapSet_none [ch] hg]
        rfl
      refine ⟨?_, ?_, ?_⟩
      · rw [hreq]
        dsimp only [totalChannels]
        rw [hsum, hInv]
        rw [show totalChannels s = sumLens s.connections from rfl]
        omega
      · rw [hreq]
        exact keysNodup_mapSet _ _ hk
      · intro ch' hne hfr'
        rw [hreq]
        intro e he
        rcases mem_mapSet he with h' | h'
        · exact hfr' e h'
        · rw [h']
          dsimp only
          rw [hadd]
          intro hmem
          exact hne (List.mem_singleton.mp hmem)
    · have hchl : ch ∉ l := hfresh (sid, l) (mapGet_mem hg)
      have hset0 : (mapGet s.connections sid).getD [] = l := by
        rw [hg]
        rfl
      have hadd : setAdd ((mapGet s.connections sid).getD []) ch = l ++ [ch] := by
        rw [hset0, setAdd_of_not_mem hchl]
      have hsum := sumLens_mapSet_some (l ++ [ch]) hk hg
      simp only [List.length_append, List.length_cons, List.length_nil] at hsum
      refine ⟨?_, ?_, ?_⟩
      · rw [hreq]
        dsimp only [totalChannels]
        rw [hadd, hInv]
        rw [show totalChannels s = sumLens s.connections from rfl]
        omega
      · rw [hreq]
        exact keysNodup_mapSet _ _ hk
      · intro ch' hne hfr'
        rw [hreq]
        intro e he
        rcases mem_mapSet he with h' | h'
        · exact hfr' e h'
        · rw [h']
          dsimp only
          rw [hadd]
          intro hmem
          rcases List.mem_append.mp hmem with h'' | h''
          · exact hfr' (sid, l) (mapGet_mem hg) h''
          · exact hne (List.mem_singleton.mp h'')

theorem eq_nil_of_isEmpty {α : Type} {l : List α} (h : l.isEmpty = true) : l = [] := by
  cases hx : l with
  | nil => rfl
  | cons a t => rw [hx] at h; simp [List.isEmpty] at h

/-- Unregistering preserves the active-count/held-channels equality, key
uniqueness, and channel freshness. -/
theorem unregister_inv (sid : String) (ch : Channel) (s : ServerState)
    (hk : keysNodup s.connections)
    (hInv : s.metrics.connectionsActive = (totalChannels s : Int)) :
    (unregisterConnection sid ch s).metrics.connectionsActive
        = (totalChannels (unregisterConnection sid ch s) : Int) ∧
    keysNodup (unregisterConnection sid ch s).connections ∧
    (∀ ch', chanFresh ch' s → chanFresh ch' (unregisterConnection sid ch s)) := by
  rw [show totalChannels s = sumLens s.connections from rfl] at hInv
  rcases hg : mapGet s.connections sid with _ | set
  · have heq : unregisterConnection sid ch s = s := by
      unfold unregisterConnection
      rw [hg]
    rw [heq]
    exact ⟨hInv, hk, fun ch' h => h⟩
  · have heq : unregisterConnection sid ch s =
        { s with
          connections :=
            if (setDelete set ch).isEmpty then
              mapDelete (mapSet s.connections sid (setDelete set ch)) sid
            else mapSet s.connections sid (setDelete set ch),
          metrics :=
            if ch ∈ set then
              { s.metrics with
                connectionsActive := max 0 (s.metrics.connectionsActive - 1) }
            else s.metrics } := by
      unfold unregisterConnection
      rw [hg]
    have hsum1 := sumLens_mapSet_some (setDelete set ch) hk hg
    have hgc := mapGet_mapSet_self s.connections sid (setDelete set ch)
    have hsum2 := sumLens_mapDelete_some (keysNodup_mapSet sid _ hk) hgc
    have hlen : set.length ≤ sumLens s.connections := length_le_sumLens (mapGet_mem hg)
    rw [heq]
    refine ⟨?_, ?_, ?_⟩
    · dsimp only [totalChannels]
      by_cases hm : ch ∈ set
      · rw [if_pos hm]
        have hdl := length_setDelete_of_mem hm
        have ha1 : (1 : Int) ≤ s.metrics.connectionsActive := by
          rw [hInv]
          have h1 : (1 : Nat) ≤ sumLens s.connections := by omega
          exact_mod_cast h1
        have hmax : max (0 : Int) (s.metrics.connectionsActive - 1)
            = s.metrics.connectionsActive - 1 := max_eq_right (by omega)
        by_cases hemp : (setDelete set ch).isEmpty = true
        · rw [if_pos hemp]
          dsimp only
          rw [hmax, hInv]
          have h0 : (setDelete set ch).length = 0 := by
            rw [eq_nil_of_isEmpty hemp]
            rfl
          omega
        · rw [if_neg hemp]
          dsimp only
          rw [hmax, hInv]
          omega
      · rw [if_neg hm]
        have hdel : setDelete set ch = set := setDelete_of_not_mem hm
        by_cases hemp : (setDelete set ch).isEmpty = true
        · rw [if_pos hemp]
          rw [hInv]
          have hdlen : (setDelete set ch).length = set.length := by rw [hdel]
          have h0 : (setDelete set ch).length = 0 := by
            rw [eq_nil_of_isEmpty hemp]
            rfl
          omega
        · rw [if_neg hemp]
          rw [hInv]
          have hdlen : (setDelete set ch).length = set.length := by rw [hdel]
          omega
    · by_cases hemp : (setDelete set ch).isEmpty = true
      · rw [if_pos hemp]
        exact keysNodup_mapDelete sid (keysNodup_mapSet sid _ hk)
      · rw [if_neg hemp]
        exact keysNodup_mapSet sid _ hk
    · intro ch' hfr' e he
      have hsub : e ∈ mapSet s.connections sid (setDelete set ch) := by
        by_cases hemp : (setDelete set ch).isEmpty = true
        · rw [if_pos hemp] at he
          exact mem_mapDelete he
        · rw [if_neg hemp] at he
          exact he
      rcases mem_mapSet hsub with h' | h'
      · exact hfr' e h'
      · rw [h']
        dsimp only
        intro hmem
        exact hfr' (sid, set) (mapGet_mem hg) (setDelete_subset ch' hmem)

/-- The active-count equals the total number of held channels in every state
reached from process start by a trace whose registered channels are pairwise
distinct (each HTTP request brings a fresh `FastifyReply` object). -/
theorem invariant_trace (ops : List Op) : ∀ s : ServerState,
    keysNodup s.connections →
    s.metrics.connectionsActive = (totalChannels s : Int) →
    (∀ ch ∈ registeredChannels ops, chanFresh ch s) →
    (registeredChannels ops).Nodup →
    (applyOps ops s).metrics.connectionsActive
      = (totalChannels (applyOps ops s) : Int) := by
  induction ops with
  | nil => exact fun s _ hInv _ _ => hInv
  | cons op ops ih =>
    intro s hk hInv hfr hnd
    cases op with
    | register sid ch =>
      have hfr0 : chanFresh ch s :=
        hfr ch (by dsimp only [registeredChannels]; exact List.mem_cons_self _ _)
      obtain ⟨h1, h2, h3⟩ := register_inv sid ch s hk hfr0 hInv
      refine ih (registerConnection sid ch s) h2 h1 ?_ ?_
      · intro ch' hmem
        have hneq : ch' ≠ ch := by
          dsimp only [registeredChannels] at hnd
          rcases List.nodup_cons.mp hnd with ⟨hnotin, _⟩
          intro hx
          exact hnotin (hx ▸ hmem)
        exact h3 ch' hneq (hfr ch'
          (by dsimp only [registeredChannels]; exact List.mem_cons_of_mem _ hmem))
      · dsimp only [registeredChannels] at hnd
        exact (List.nodup_cons.mp hnd).2
    | unregister sid ch =>
      obtain ⟨h1, h2, h3⟩ := unregister_inv sid ch s hk hInv
      exact ih (unregisterConnection sid ch s) h2 h1
        (fun ch' hmem => h3 ch' (hfr ch' hmem)) hnd
    | broadcast sid payload =>
      have hcon : (broadcastToStudent sid payload s).2.connections = s.connections :=
        (broadcast_frame sid payload s).1
      have hact : (broadcastToStudent sid payload s).2.metrics.connectionsActive
          = s.metrics.connectionsActive := (broadcast_frame sid payload s).2.2.2.2.1
      refine ih (broadcastToStudent sid payload s).2 ?_ ?_ ?_ hnd
      · unfold keysNodup
        rw [hcon]
        exact hk
      · rw [hact, show totalChannels (broadcastToStudent sid payload s).2
            = sumLens (broadcastToStudent sid payload s).2.connections from rfl, hcon]
        exact hInv
      · intro ch' hmem e he
        rw [hcon] at he
        exact hfr ch' hmem e he
    | append now n =>
      exact ih (addRecentNotification now n s) hk hInv hfr hnd
    | prune now =>
      exact ih (pruneOldNotifications now s) hk hInv hfr hnd

theorem C2_boundedFanOutEviction_witness :
    wChans.Nodup ∧ MAX_CONNECTIONS_PER_STUDENT < wChans.length ∧
    (mapGet (applyOps (wChans.map (Op.register "s")) initialState).connections "s"
        = some (wChans.drop (wChans.length - MAX_CONNECTIONS_PER_STUDENT)) ∧
      (wChans.drop (wChans.length - MAX_CONNECTIONS_PER_STUDENT)).length
        = MAX_CONNECTIONS_PER_STUDENT ∧
      (applyOps (wChans.map (Op.register "s")) initialState).closedLog
        = (wChans.take (wChans.length - MAX_CONNECTIONS_PER_STUDENT)).map Channel.cid) :=
  ⟨by decide, by decide,
    C2_boundedFanOutEviction.2.1 "s" wChans (by decide) (by decide)⟩

/-- C10: after any sequence of operations from process start whose
registered channels are pairwise distinct (each HTTP request carries a fresh
`FastifyReply`), `connectionsActive` equals the total number of channels held
across all recipients' sets — in particular it is never negative; and a
register call that evicts leaves `connectionsActive` net unchanged while
still incrementing `connectionsTotal` by one. -/
theorem C10_activeCountConsistency :
    (∀ ops : List Op, (registeredChannels ops).Nodup →
      (applyOps ops initialState).metrics.connectionsActive
        = (totalChannels (applyOps ops initialState) : Int)) ∧
    (∀ (sid : String) (ch : Channel) (s : ServerState) (l : List Channel),
      s.metrics.connectionsActive = (totalChannels s : Int) →
      mapGet s.connections sid = some l →
      MAX_CONNECTIONS_PER_STUDENT ≤ l.length →
      (registerConnection sid ch s).metrics.connectionsActive
          = s.metrics.connectionsActive ∧
      (registerConnection sid ch s).metrics.connectionsTotal
          = s.metrics.connectionsTotal + 1) := by
  constructor
  · intro ops hnd
    refine invariant_trace ops initialState ?_ rfl ?_ hnd
    · unfold keysNodup
      exact List.nodup_nil
    · intro ch _ e he
      cases he
  · intro sid ch s l hInv hg hlen
    rcases hx : l with _ | ⟨c, t⟩
    · rw [hx] at hlen
      simp [MAX_CONNECTIONS_PER_STUDENT] at hlen
    · subst hx
      have hreq := register_eq_evict sid ch s c t hg hlen
      have hlen2 : (c :: t).length ≤ totalChannels s :=
        length_le_sumLens (mapGet_mem hg)
      have ha1 : (1 : Int) ≤ s.metrics.connectionsActive := by
        rw [hInv]
        have h1 : (1 : Nat) ≤ totalChannels s := by
          simp only [List.length_cons] at hlen2
          omega
        exact_mod_cast h1
      constructor
      · rw [hreq]
        dsimp only
        rw [max_eq_right (show (0 : Int) ≤ s.metrics.connectionsActive - 1 by omega)]
        omega
      · rw [hreq]

theorem C10_activeCountConsistency_witness :
    (registeredChannels (wChans.map (Op.register "s"))).Nodup ∧
    (applyOps (wChans.map (Op.register "s")) initialState).metrics.connectionsActive
      = (totalChannels (applyOps (wChans.map (Op.register "s")) initialState) : Int) :=
  ⟨by decide,
    C10_activeCountConsistency.1 (wChans.map (Op.register "s")) (by decide)⟩

theorem C9_subscribeReplay_witness :
    ¬ ("s1" : String) = "" ∧ (Channel.mk 9 true).writeOk = true ∧
    keysNodup wState5.recentNotifications ∧
    (sseHandler 90000001 "s1" ⟨9, true⟩ wState5).1 = HttpResponse.streamOpen ∧
    (sseHandler 90000001 "s1" ⟨9, true⟩ wState5).2.written
      = wState5.written ++ [(9, Frame.connected 90000001)]
        ++ (keepFresh 90000001 ((mapGet wState5.recentNotifications "s1").getD [])).map
            (fun n => (9, Frame.missed n.id n.message n.createdAt)) :=
  ⟨by decide, rfl, by decide,
    (C9_subscribeReplay 90000001 "s1" ⟨9, true⟩ wState5 (by decide) rfl (by decide)).1,
    (C9_subscribeReplay 90000001 "s1" ⟨9, true⟩ wState5 (by decide) rfl (by decide)).2.1⟩

end GradeNotifications
